import Mathlib

/-!
Verification development for the Cline transcript-collapsing and
loop-detection engine (`collapseContextMessagesForCline` and its helpers).
The TypeScript source is ported definition by definition into a shallow
embedding: JavaScript strings become `String`, `Map`/`Set` (whose iteration
order is insertion order) become association lists and ordered lists, and
the regular expressions used by the source are rendered as explicit
matching functions with the same semantics on the inputs the engine feeds
them.
-/

namespace Cline

/-- Whitespace test used to model both JavaScript `trim` and the `\s`
character class on the ASCII inputs handled by the engine. -/
def isWs (c : Char) : Bool := c = ' ' || c = '\t' || c = '\n' || c = '\r'

/-- Decimal digit test, modelling the `\d` character class. -/
def isDigitCh (c : Char) : Bool := '0' ≤ c && c ≤ '9'

/-- Word-character test, modelling the `\w` class `[A-Za-z0-9_]`. -/
def isWordChar (c : Char) : Bool := c.isAlpha || isDigitCh c || c = '_'

/-- Trim whitespace from both ends of a character list. -/
def trimList (l : List Char) : List Char :=
  ((l.dropWhile isWs).reverse.dropWhile isWs).reverse

/-- Model of JavaScript `String.prototype.trim`. -/
def jsTrim (s : String) : String := String.mk (trimList s.data)

/-- Does `pat` occur in `l` starting at position `i`? -/
def occursAt (pat : String) (l : List Char) (i : Nat) : Bool :=
  pat.data.isPrefixOf (l.drop i)

/-- Model of JavaScript `String.prototype.indexOf` (first occurrence). -/
def indexOfSub? (l : List Char) (pat : String) : Option Nat :=
  (List.range (l.length + 1)).find? (fun i => occursAt pat l i)

/-- Model of JavaScript `String.prototype.lastIndexOf` (last occurrence). -/
def lastIndexOfSub? (l : List Char) (pat : String) : Option Nat :=
  (List.range (l.length + 1)).reverse.find? (fun i => occursAt pat l i)

/-- Model of JavaScript `String.prototype.includes`. -/
def containsSub (s pat : String) : Bool := (indexOfSub? s.data pat).isSome

/-- Model of JavaScript `String.prototype.startsWith`. -/
def jsStartsWith (s pat : String) : Bool := pat.data.isPrefixOf s.data

/-- Model of `String.prototype.slice` with both indices in range. -/
def sliceList (l : List Char) (i j : Nat) : List Char := (l.drop i).take (j - i)

/-- Model of `s.replace(/\s+/g, " ")`: every maximal whitespace run becomes
a single space.  The boolean argument records whether the previous character
belonged to a whitespace run. -/
def collapseWsAux : Bool → List Char → List Char
  | _, [] => []
  | prevWs, c :: rest =>
    if isWs c then
      if prevWs then collapseWsAux true rest
      else ' ' :: collapseWsAux true rest
    else c :: collapseWsAux false rest

/-- Collapse whitespace runs in a character list to single spaces. -/
def collapseWs (l : List Char) : List Char := collapseWsAux false l

/-- Split a character list at a separator character, dropping empty pieces
and returning the pieces as strings.  Used to tokenise commands whose
whitespace was already collapsed to single spaces. -/
def tokensOf (l : List Char) (sep : Char) : List String :=
  ((l.splitOn sep).map String.mk).filter (fun t => t ≠ "")

/-- Join strings with single spaces (inverse of tokenisation). -/
def joinSpaces (ts : List String) : String := String.intercalate " " ts

/-- Is the character at index `i` (if any) a word character? -/
def wordAt (l : List Char) (i : Nat) : Bool :=
  match l.get? i with
  | some c => isWordChar c
  | none => false

/-- Model of the regex word boundary `\b` between positions `i-1` and `i`:
exactly one side is a word character (out-of-range counts as non-word). -/
def boundaryAt (l : List Char) (i : Nat) : Bool :=
  (if i = 0 then false else wordAt l (i - 1)) != wordAt l i

/-- Does the word `w` occur in `l` with `\b` boundaries on both sides,
modelling a test of the regex `\bw\b`? -/
def hasWordOcc (l : List Char) (w : String) : Bool :=
  (List.range (l.length + 1)).any fun i =>
    occursAt w l i && boundaryAt l i && boundaryAt l (i + w.length)

/-- Model of the test `/\bgit\s+(diff|status|log|show)\b/.test(command)`:
an occurrence of `git` with a left word boundary, one or more whitespace
characters, then one of the four subcommands with a right word boundary. -/
def hasGitInspOcc (l : List Char) : Bool :=
  (List.range (l.length + 1)).any fun i =>
    boundaryAt l i && occursAt "git" l i &&
      (let rest := l.drop (i + 3)
       let wn := (rest.takeWhile isWs).length
       decide (0 < wn) &&
         ["diff", "status", "log", "show"].any fun sub =>
           occursAt sub l (i + 3 + wn) && boundaryAt l (i + 3 + wn + sub.length))

/-- The word alternatives of the inspection-command test
`/\b(find|rg|grep|ls|head|tail|pwd|which|cat|tree)\b/`. -/
def inspectionWords : List String :=
  ["find", "rg", "grep", "ls", "head", "tail", "pwd", "which", "cat", "tree"]

/-- Model of the inspection test on a (whitespace-collapsed) command:
`/\bgit\s+(diff|status|log|show)\b/.test(c) || /\b(find|rg|grep|ls|head|tail|pwd|which|cat|tree)\b/.test(c)`. -/
def isInspectionCommand (command : String) : Bool :=
  hasGitInspOcc command.data || inspectionWords.any (hasWordOcc command.data)

/-- Index of the first chaining operator (`&&`, `||` or `;`) in a command,
modelling where `command.split(/\s*(?:&&|\|\||;)\s*/)` cuts off its first
piece (the whitespace consumed by `\s*` is removed by the final `trim`). -/
def chainOpIndex? (l : List Char) : Option Nat :=
  (List.range (l.length + 1)).find? fun i =>
    occursAt "&&" l i || occursAt "||" l i || occursAt ";" l i

/-- Model of `command.split(/\s*(?:&&|\|\||;)\s*/)[0].trim()`: the text
before the first chaining operator, trimmed. -/
def firstChainSegment (command : String) : String :=
  match chainOpIndex? command.data with
  | some i => jsTrim (String.mk (command.data.take i))
  | none => jsTrim command

/-- A token of the shape `-[a-zA-Z]+` (a flag group of the `ls` regex). -/
def isFlagToken (t : String) : Bool :=
  match t.data with
  | '-' :: rest => !rest.isEmpty && rest.all (fun c => c.isAlpha)
  | _ => false

/-- Model of `firstSegment.match(/^ls(?:\s+-[a-zA-Z]+)*(?:\s+(.+))?$/)` on a
whitespace-collapsed, trimmed segment, returning the `ls` target with the
source's default `"."`.  On such segments the regex's greedy matching is
equivalent to: the first token must be `ls`, the maximal following prefix
of `-letters` tokens is consumed as flags, and the remaining tokens (if
any) joined by single spaces form the captured target. -/
def lsTarget? (seg : String) : Option String :=
  match tokensOf seg.data ' ' with
  | "ls" :: rest =>
      let tail := rest.dropWhile isFlagToken
      some (if tail.isEmpty then "." else joinSpaces tail)
  | _ => none

/-- Model of `firstSegment.match(/^cat\s+(.+)$/)` on a whitespace-collapsed,
trimmed segment: first token `cat`, nonempty remainder captured. -/
def catArg? (seg : String) : Option String :=
  match tokensOf seg.data ' ' with
  | "cat" :: rest => if rest.isEmpty then none else some (joinSpaces rest)
  | _ => none

/-- Model of `firstSegment.match(/^git\s+(diff|status|log|show)(?:\s+.*)?$/)`
on a whitespace-collapsed, trimmed segment. -/
def gitSub? (seg : String) : Option String :=
  match tokensOf seg.data ' ' with
  | "git" :: sub :: _ =>
      if sub ∈ ["diff", "status", "log", "show"] then some sub else none
  | _ => none

/-- Model of `summary.match(/^read\s+(.+)$/)`, returning the captured group.
The regex anchors both ends; `(.+)` cannot contain a newline and is
nonempty, and backtracking lets the greedy `\s+` give up its final
character (when it is not a newline) if nothing else remains. -/
def readCapture? (summary : String) : Option String :=
  match summary.data with
  | 'r' :: 'e' :: 'a' :: 'd' :: after =>
      let w := after.takeWhile isWs
      let r := after.dropWhile isWs
      if w.isEmpty then none
      else if !r.isEmpty then
        if r.contains '\n' then none else some (String.mk r)
      else
        match w.getLast? with
        | some c => if 2 ≤ w.length && c ≠ '\n' then some (String.mk [c]) else none
        | none => none
  | _ => none

/-- Model of `/\bgit\s+diff\s+\S*\.\.\.\S*\b/.test(summary)` (the
branch-range diff detector used by the no-output advisory hint). -/
def hasWrongDiffScope (s : String) : Bool :=
  let l := s.data
  (List.range (l.length + 1)).any fun i =>
    boundaryAt l i && occursAt "git" l i &&
      (let r1 := l.drop (i + 3)
       let w1 := (r1.takeWhile isWs).length
       decide (0 < w1) && occursAt "diff" l (i + 3 + w1) &&
         (let p0 := i + 3 + w1 + 4
          let r2 := l.drop p0
          let w2 := (r2.takeWhile isWs).length
          decide (0 < w2) &&
            (let p := p0 + w2
             let run := ((l.drop p).takeWhile (fun c => !isWs c)).length
             (List.range (run + 1)).any fun k =>
               occursAt "..." l (p + k) &&
                 (List.range (run + 1)).any fun e =>
                   decide (k + 3 ≤ e) && boundaryAt l (p + e))))

/-- Model of `/<task>[\s\S]*<\/task>/.test(t)`: some occurrence of
`<task>` is followed (at distance at least 6) by an occurrence of
`</task>`. -/
def hasTaskPattern (t : String) : Bool :=
  match indexOfSub? t.data "<task>", lastIndexOfSub? t.data "</task>" with
  | some p, some q => decide (p + 6 ≤ q)
  | _, _ => false

/-- The single-quote character (written by code point to keep string
literals free of quote characters). -/
def squote : Char := Char.ofNat 39

/-- The double-quote character. -/
def dquote : Char := Char.ofNat 34

/-- Opening curly brace character. -/
def lbrace : Char := Char.ofNat 123

/-- Closing curly brace character. -/
def rbrace : Char := Char.ofNat 125

/-- Case-insensitive literal prefix test (for the `/i` flag). -/
def ciPrefixAt (pat : String) (l : List Char) : Bool :=
  ((l.take pat.length).map Char.toLower) = pat.data

/-- One backtracking attempt of the tail of the skill regex
`name\s*=\s*["']([^"']+)["'][^>]*>` at a given suffix position. -/
def trySkillSuffix (m : List Char) : Option String :=
  if ciPrefixAt "name" m then
    let m2 := (m.drop 4).dropWhile isWs
    match m2 with
    | '=' :: m3a =>
      let m4 := m3a.dropWhile isWs
      match m4 with
      | q :: m5 =>
        if q = dquote || q = squote then
          let cap := m5.takeWhile (fun c => c ≠ dquote && c ≠ squote)
          if cap.isEmpty then none
          else
            match m5.drop cap.length with
            | _ :: m6 => if m6.contains '>' then some (String.mk cap) else none
            | [] => none
        else none
      | [] => none
    | _ => none
  else none

/-- Model of one match attempt of
`/<skill\s+[^>]*name\s*=\s*["']([^"']+)["'][^>]*>/i` at the start of `l`:
the literal `<skill` (case-insensitive), one whitespace character (the
rest of `\s+` is absorbed by the greedy `[^>]*`), then the greedy `[^>]*`
tried from its longest to its shortest extent. -/
def matchSkillAt (l : List Char) : Option String :=
  if ciPrefixAt "<skill" l then
    match l.get? 6 with
    | some c =>
      if isWs c then
        let rest := l.drop 7
        let bound := (rest.takeWhile (fun ch => ch ≠ '>')).length
        (List.range (bound + 1)).reverse.findSome? fun k => trySkillSuffix (rest.drop k)
      else none
    | none => none
  else none

/-- Port of `extractFirstSkillNameFromText`: leftmost match of the skill
regex, trimmed capture, empty capture treated as no skill. -/
def extractFirstSkillNameFromText (text : String) : Option String :=
  ((List.range (text.data.length + 1)).findSome? fun i =>
      matchSkillAt (text.data.drop i)).bind fun cap =>
    let skill := jsTrim cap
    if skill = "" then none else some skill

/-- JavaScript values as far as the engine's tool-call arguments are
concerned.  Numbers are carried as their JSON literal text (all numbers the
engine ever re-serialises are written in canonical form). -/
inductive Js where
  | jnull
  | jbool (b : Bool)
  | jnum (lit : String)
  | jstr (s : String)
  | jarr (elems : List Js)
  | jobj (fields : List (String × Js))

/-- Is this value `null` (or the modelled `undefined`)? -/
def Js.isNull : Js → Bool
  | .jnull => true
  | _ => false

/-- Lowercase hexadecimal digit. -/
def hexDigit (n : Nat) : Char :=
  if n < 10 then Char.ofNat (48 + n) else Char.ofNat (87 + n)

/-- JSON string escaping of one character, as `JSON.stringify` performs it. -/
def escapeJsonChar (c : Char) : List Char :=
  if c = dquote then ['\\', dquote]
  else if c = '\\' then ['\\', '\\']
  else if c = '\n' then ['\\', 'n']
  else if c = '\r' then ['\\', 'r']
  else if c = '\t' then ['\\', 't']
  else if c = Char.ofNat 8 then ['\\', 'b']
  else if c = Char.ofNat 12 then ['\\', 'f']
  else if c.val < 32 then
    ['\\', 'u', '0', '0', hexDigit (c.val.toNat / 16), hexDigit (c.val.toNat % 16)]
  else [c]

/-- Quote and escape a string as a JSON string literal. -/
def quoteJson (s : String) : String :=
  String.mk (dquote :: (s.data.map escapeJsonChar).flatten ++ [dquote])

mutual

/-- Model of compact `JSON.stringify` on the engine's argument values. -/
def Js.stringify : Js → String
  | .jnull => "null"
  | .jbool true => "true"
  | .jbool false => "false"
  | .jnum lit => lit
  | .jstr s => quoteJson s
  | .jarr xs => "[" ++ String.intercalate "," (stringifyList xs) ++ "]"
  | .jobj fs =>
      String.mk [lbrace] ++ String.intercalate "," (stringifyFields fs) ++ String.mk [rbrace]

/-- Stringify the elements of a JSON array. -/
def stringifyList : List Js → List String
  | [] => []
  | x :: xs => x.stringify :: stringifyList xs

/-- Stringify the members of a JSON object. -/
def stringifyFields : List (String × Js) → List String
  | [] => []
  | (k, v) :: fs => (quoteJson k ++ ":" ++ v.stringify) :: stringifyFields fs

end

/-- Value of a hexadecimal digit character, if any. -/
def hexVal? (c : Char) : Option Nat :=
  if '0' ≤ c && c ≤ '9' then some (c.toNat - 48)
  else if 'a' ≤ c && c ≤ 'f' then some (c.toNat - 87)
  else if 'A' ≤ c && c ≤ 'F' then some (c.toNat - 55)
  else none

/-- Parse the body of a JSON string (after the opening quote), handling the
escape sequences accepted by `JSON.parse` and rejecting raw control
characters.  The accumulator holds the decoded characters in reverse. -/
def parseJsonStringAux : Nat → List Char → List Char → Option (String × List Char)
  | 0, _, _ => none
  | _, _, [] => none
  | fuel + 1, acc, c :: rest =>
    if c = dquote then some (String.mk acc.reverse, rest)
    else if c = '\\' then
      match rest with
      | [] => none
      | e :: r2 =>
        if e = dquote then parseJsonStringAux fuel (dquote :: acc) r2
        else if e = '\\' then parseJsonStringAux fuel ('\\' :: acc) r2
        else if e = '/' then parseJsonStringAux fuel ('/' :: acc) r2
        else if e = 'b' then parseJsonStringAux fuel (Char.ofNat 8 :: acc) r2
        else if e = 'f' then parseJsonStringAux fuel (Char.ofNat 12 :: acc) r2
        else if e = 'n' then parseJsonStringAux fuel ('\n' :: acc) r2
        else if e = 'r' then parseJsonStringAux fuel ('\r' :: acc) r2
        else if e = 't' then parseJsonStringAux fuel ('\t' :: acc) r2
        else if e = 'u' then
          match r2 with
          | h1 :: h2 :: h3 :: h4 :: r3 =>
            match hexVal? h1, hexVal? h2, hexVal? h3, hexVal? h4 with
            | some a, some b, some cc, some d =>
                parseJsonStringAux fuel (Char.ofNat (((a * 16 + b) * 16 + cc) * 16 + d) :: acc) r3
            | _, _, _, _ => none
          | _ => none
        else none
    else if c.val < 32 then none
    else parseJsonStringAux fuel (c :: acc) rest

/-- Parse a JSON string body starting after the opening quote. -/
def parseJsonString (l : List Char) : Option (String × List Char) :=
  parseJsonStringAux (l.length + 1) [] l

/-- Parse a JSON number per the JSON grammar, keeping its literal text. -/
def parseNumber (l : List Char) : Option (Js × List Char) :=
  let (sign, l1) := match l with
    | '-' :: r => (['-'], r)
    | _ => (([] : List Char), l)
  let intPart? : Option (List Char × List Char) :=
    match l1 with
    | '0' :: r => some (['0'], r)
    | c :: _ =>
        if '1' ≤ c && c ≤ '9' then
          some (l1.takeWhile isDigitCh, l1.dropWhile isDigitCh)
        else none
    | [] => none
  match intPart? with
  | none => none
  | some (ip, l2) =>
    let fracStep : Option (List Char × List Char) :=
      match l2 with
      | '.' :: r =>
          let ds := r.takeWhile isDigitCh
          if ds.isEmpty then none else some ('.' :: ds, r.dropWhile isDigitCh)
      | _ => some ([], l2)
    match fracStep with
    | none => none
    | some (fp, l3) =>
      let expStep : Option (List Char × List Char) :=
        match l3 with
        | e :: r =>
            if e = 'e' || e = 'E' then
              let (es, r2) := match r with
                | s :: r2 => if s = '+' || s = '-' then ([e, s], r2) else ([e], r)
                | [] => ([e], r)
              let ds := r2.takeWhile isDigitCh
              if ds.isEmpty then none else some (es ++ ds, r2.dropWhile isDigitCh)
            else some ([], l3)
        | [] => some ([], l3)
      match expStep with
      | none => none
      | some (ep, l4) => some (.jnum (String.mk (sign ++ ip ++ fp ++ ep)), l4)

/-- Insert a parsed object member, later duplicates overwriting earlier
ones in place (the behaviour of `JSON.parse`). -/
def objUpsert (fs : List (String × Js)) (k : String) (v : Js) : List (String × Js) :=
  match fs with
  | [] => [(k, v)]
  | (k0, v0) :: rest => if k0 = k then (k0, v) :: rest else (k0, v0) :: objUpsert rest k v

mutual

/-- Fuel-indexed recursive-descent parser modelling `JSON.parse` (values). -/
def parseVal : Nat → List Char → Option (Js × List Char)
  | 0, _ => none
  | fuel + 1, l0 =>
    let l := l0.dropWhile isWs
    match l with
    | [] => none
    | c :: rest =>
      if c = 'n' then
        if "ull".data.isPrefixOf rest then some (.jnull, rest.drop 3) else none
      else if c = 't' then
        if "rue".data.isPrefixOf rest then some (.jbool true, rest.drop 3) else none
      else if c = 'f' then
        if "alse".data.isPrefixOf rest then some (.jbool false, rest.drop 4) else none
      else if c = dquote then
        (parseJsonString rest).map fun p => (.jstr p.1, p.2)
      else if c = '[' then
        match rest.dropWhile isWs with
        | ']' :: r2 => some (.jarr [], r2)
        | _ => (parseElems fuel rest).map fun p => (.jarr p.1, p.2)
      else if c = lbrace then
        match rest.dropWhile isWs with
        | r0 :: r2 =>
            if r0 = rbrace then some (.jobj [], r2)
            else (parseMembers fuel rest).map fun p =>
              (.jobj (p.1.foldl (fun acc kv => objUpsert acc kv.1 kv.2) []), p.2)
        | [] => none
      else parseNumber l

/-- Parse the elements of a nonempty JSON array up to and past `]`. -/
def parseElems : Nat → List Char → Option (List Js × List Char)
  | 0, _ => none
  | fuel + 1, l =>
    match parseVal fuel l with
    | none => none
    | some (v, r) =>
      match r.dropWhile isWs with
      | ',' :: r2 => (parseElems fuel r2).map fun p => (v :: p.1, p.2)
      | ']' :: r2 => some ([v], r2)
      | _ => none

/-- Parse the members of a nonempty JSON object up to and past the
closing brace. -/
def parseMembers : Nat → List Char → Option (List (String × Js) × List Char)
  | 0, _ => none
  | fuel + 1, l =>
    match l.dropWhile isWs with
    | c :: r =>
      if c = dquote then
        match parseJsonString r with
        | none => none
        | some (k, r2) =>
          match r2.dropWhile isWs with
          | ':' :: r3 =>
            match parseVal fuel r3 with
            | none => none
            | some (v, r4) =>
              match r4.dropWhile isWs with
              | ',' :: r5 => (parseMembers fuel r5).map fun p => ((k, v) :: p.1, p.2)
              | e :: r5 => if e = rbrace then some ([(k, v)], r5) else none
              | [] => none
          | _ => none
      else none
    | [] => none

end

/-- Model of `JSON.parse`: parse one value, allow trailing whitespace,
reject trailing garbage; `none` models a thrown `SyntaxError`. -/
def jsonParse (s : String) : Option Js :=
  match parseVal (2 * s.data.length + 2) s.data with
  | some (v, rest) => if (rest.dropWhile isWs).isEmpty then some v else none
  | none => none

/-- Counter-map lookup modelling `map.get(key) || 0` on a JavaScript `Map`
(association list in insertion order). -/
def aget (m : List (String × Nat)) (k : String) : Nat :=
  match m with
  | [] => 0
  | kv :: rest => if kv.1 = k then kv.2 else aget rest k

/-- Counter-map update modelling `map.set(key, value)`: an existing key
keeps its position, a new key is appended (JavaScript `Map` iteration is
in insertion order). -/
def aset (m : List (String × Nat)) (k : String) (v : Nat) : List (String × Nat) :=
  match m with
  | [] => [(k, v)]
  | (k0, v0) :: rest => if k0 = k then (k0, v) :: rest else (k0, v0) :: aset rest k v

/-- Port of `incrementCounter` (with the default delta of 1 the engine
always uses). -/
def incrementCounter (m : List (String × Nat)) (k : String) : List (String × Nat) :=
  aset m k (aget m k + 1)

/-- Port of `setCounterAtLeast`. -/
def setCounterAtLeast (m : List (String × Nat)) (k : String) (v : Nat) : List (String × Nat) :=
  if aget m k < v then aset m k v else m

/-- Set insertion modelling `set.add(x)` on a JavaScript `Set` (kept as a
list in insertion order). -/
def setAdd (s : List String) (x : String) : List String :=
  if s.contains x then s else s ++ [x]

/-- Port of `inferToolNameFromToolCallSummary`. -/
def inferToolNameFromToolCallSummary (summary : String) : Option String :=
  if jsStartsWith summary "$ " then some "bash"
  else if jsStartsWith summary "read " then some "read"
  else if jsStartsWith summary "edit " then some "edit"
  else if jsStartsWith summary "write " then some "write"
  else none

/-- Port of `normalizeToolCallSummaryForLoopDetection`. -/
def normalizeToolCallSummaryForLoopDetection (summary : String) : String :=
  let normalized := jsTrim summary
  let normalized :=
    if jsStartsWith normalized "$ " then jsTrim (String.mk (normalized.data.drop 2))
    else normalized
  String.mk (collapseWs normalized.data)

/-- The family key of a qualifying inspection command: the listing,
viewing or version-control normalization of its leading segment when one
applies, the full normalized command otherwise. -/
def inspectionFamilyKey (command : String) : String :=
  match lsTarget? (firstChainSegment command) with
  | some target => "ls " ++ target
  | none =>
    match catArg? (firstChainSegment command) with
    | some arg => "cat " ++ arg
    | none =>
      match gitSub? (firstChainSegment command) with
      | some sub => "git " ++ sub
      | none => command

/-- Port of `detectInspectionToolFamily`. -/
def detectInspectionToolFamily (toolName toolCallSummary : String) : Option String :=
  if toolName = "read" then
    match readCapture? toolCallSummary with
    | some p => some ("read " ++ p)
    | none => some "read"
  else if toolName ≠ "bash" then none
  else
    let command := normalizeToolCallSummaryForLoopDetection toolCallSummary
    if command = "" then none
    else if !isInspectionCommand command then none
    else some (inspectionFamilyKey command)

/-- Rendering of a non-string primitive by JavaScript `String(...)`. -/
def jsPrimToString : Js → String
  | .jbool true => "true"
  | .jbool false => "false"
  | .jnum lit => lit
  | .jstr s => s
  | _ => ""

/-- Port of `parseToolCallArguments`: `null`/`undefined` becomes an empty
object, objects (and arrays, for which `typeof` is also `"object"`) pass
through, strings are parsed with the `{raw: ...}` fallback, and remaining
primitives are wrapped as `{raw: String(rawArgs)}`. -/
def parseToolCallArguments (rawArgs : Js) : Js :=
  match rawArgs with
  | .jnull => .jobj []
  | .jobj fs => .jobj fs
  | .jarr xs => .jarr xs
  | .jstr s =>
    match jsonParse s with
    | some v => v
    | none => .jobj [("raw", .jstr s)]
  | .jbool b => .jobj [("raw", .jstr (jsPrimToString (.jbool b)))]
  | .jnum lit => .jobj [("raw", .jstr (jsPrimToString (.jnum lit)))]

/-- Field access `args?.k` on a parsed argument value. -/
def jsStrField? (args : Js) (k : String) : Option String :=
  match args with
  | .jobj fs =>
    match fs.find? (fun kv => kv.1 = k) with
    | some (_, .jstr s) => some s
    | _ => none
  | _ => none

/-- The generic branch of `summarizeToolCall`. -/
def fallbackSummary (name : String) (args : Js) : String :=
  let compact := args.stringify
  if compact ≠ "" && compact ≠ String.mk [lbrace, rbrace] then
    name ++ " " ++ String.mk (compact.data.take 240)
  else name

/-- Port of `summarizeToolCall`. -/
def summarizeToolCall (name : String) (rawArgs : Js) : String :=
  let args := parseToolCallArguments rawArgs
  if name = "bash" then
    match jsStrField? args "command" with
    | some command => "$ " ++ command
    | none => fallbackSummary name args
  else if name = "read" || name = "edit" || name = "write" then
    match jsStrField? args "path" with
    | some path => name ++ " " ++ path
    | none => fallbackSummary name args
  else fallbackSummary name args

/-- One tool call as recorded by the agent runtime (inline content part or
`msg.toolCalls` entry). -/
structure RawCall where
  id : String
  name : String
  args : Js

/-- One `msg.tool_calls` entry, whose name and arguments may be nested one
level deeper under `function`.  `Js.jnull` models an absent value. -/
structure RawCallSnake where
  id : String
  name : Option String
  fnName : Option String
  args : Js
  fnArgs : Js

/-- One content part.  `other` covers malformed or unrecognised parts. -/
inductive Part where
  | text (s : String)
  | image (mimeType data : String)
  | toolCall (id name : String) (args : Js)
  | other

/-- Message content: a string, an ordered part array, `null`/`undefined`,
or an unknown shape. -/
inductive Content where
  | str (s : String)
  | arr (parts : List Part)
  | nil
  | other

/-- A conversation message.  `none` in an `Option` field models a missing
or non-string value. -/
structure Msg where
  role : Option String := none
  content : Content := Content.nil
  toolCalls : Option (List RawCall) := none
  tool_calls : Option (List RawCallSnake) := none
  toolCallId : Option String := none
  tool_call_id : Option String := none
  toolCallID : Option String := none
  toolName : Option String := none

/-- Port of `ToolCallContext`. -/
structure ToolCallContext where
  name : String
  summary : String

/-- JavaScript truthiness of an optional string. -/
def truthyOpt (o : Option String) : Bool :=
  match o with
  | some s => s ≠ ""
  | none => false

/-- The inline `toolCall` content parts of a message that carry a truthy
id and name. -/
def partCalls (ps : List Part) : List RawCall :=
  ps.filterMap fun p =>
    match p with
    | .toolCall id name args =>
        if id ≠ "" && name ≠ "" then some { id := id, name := name, args := args } else none
    | _ => none

/-- The `tool_calls` entries with a truthy id and a truthy plain or nested
name, with `??`-style argument fallback to the nested `function` field. -/
def snakeCalls (cs : List RawCallSnake) : List RawCall :=
  cs.filterMap fun c =>
    if c.id ≠ "" && (truthyOpt c.name || truthyOpt c.fnName) then
      some { id := c.id,
             name := if truthyOpt c.name then c.name.getD "" else c.fnName.getD "",
             args := if c.args.isNull then c.fnArgs else c.args }
    else none

/-- All tool calls recorded on one message, in the order the source
concatenates the three supported shapes. -/
def msgCalls (m : Msg) : List RawCall :=
  partCalls (match m.content with | .arr ps => ps | _ => []) ++
    (m.toolCalls.getD []).filter (fun c => c.id ≠ "" && c.name ≠ "") ++
    snakeCalls (m.tool_calls.getD [])

/-- Insertion-order-preserving `byId.set` for the context map. -/
def ctxSet (m : List (String × ToolCallContext)) (k : String) (v : ToolCallContext) :
    List (String × ToolCallContext) :=
  match m with
  | [] => [(k, v)]
  | (k0, v0) :: rest => if k0 = k then (k0, v) :: rest else (k0, v0) :: ctxSet rest k v

/-- Context-map lookup. -/
def ctxGet? (m : List (String × ToolCallContext)) (k : String) : Option ToolCallContext :=
  match m with
  | [] => none
  | kv :: rest => if kv.1 = k then some kv.2 else ctxGet? rest k

/-- Insertion of one message's recorded calls into the context map. -/
def ctxInsertCalls (byId : List (String × ToolCallContext)) (calls : List RawCall) :
    List (String × ToolCallContext) :=
  calls.foldl
    (fun acc call =>
      ctxSet acc call.id
        { name := call.name, summary := summarizeToolCall call.name call.args })
    byId

/-- Port of `collectToolCallContext`: one pass over all messages, later
entries for the same id overwriting earlier ones. -/
def collectToolCallContext (messages : List Msg) : List (String × ToolCallContext) :=
  messages.foldl (fun byId msg => ctxInsertCalls byId (msgCalls msg)) []

/-- Port of `extractUserText`. -/
def extractUserText (content : Content) : String :=
  match content with
  | .str s => jsTrim s
  | .arr ps =>
      jsTrim (String.intercalate "\n\n"
        (ps.filterMap fun p => match p with | .text t => some t | _ => none))
  | _ => ""

/-- Port of `ClineScaffold`. -/
structure ClineScaffold where
  taskProgress : String
  environmentDetails : String

/-- Port of `wrapUserMessageForCline`. -/
def wrapUserMessageForCline (content : Content) (scaffold : ClineScaffold) : List Part :=
  let userText := let t := extractUserText content; if t = "" then "(no user text)" else t
  let images :=
    match content with
    | .arr ps => ps.filter (fun p => match p with | .image m d => m ≠ "" && d ≠ "" | _ => false)
    | _ => []
  [Part.text ("<task>\n" ++ userText ++ "\n</task>"),
   Part.text scaffold.taskProgress,
   Part.text scaffold.environmentDetails] ++ images

/-- Port of `isClineWrappedUserContent`. -/
def isClineWrappedUserContent (content : Content) : Bool :=
  match content with
  | .arr ps =>
    let textBlocks := ps.filterMap fun p => match p with | .text t => some t | _ => none
    decide (1 ≤ textBlocks.length) &&
      textBlocks.any hasTaskPattern &&
      textBlocks.any (fun t => containsSub t "# task_progress List") &&
      textBlocks.any (fun t => containsSub t "<environment_details>")
  | _ => false

/-- Recursion of `extractTaskBodyFromWrappedContent` over the parts. -/
def extractTaskBodyFromParts : List Part → String
  | [] => ""
  | Part.text t :: rest =>
      let text := jsTrim t
      (match indexOfSub? text.data "<task>", lastIndexOfSub? text.data "</task>" with
       | some startIdx, some endIdx =>
           if startIdx < endIdx then
             jsTrim (String.mk (sliceList text.data (startIdx + 6) endIdx))
           else extractTaskBodyFromParts rest
       | _, _ => extractTaskBodyFromParts rest)
  | _ :: rest => extractTaskBodyFromParts rest

/-- Port of `extractTaskBodyFromWrappedContent` (index-based boundary
search: first `<task>`, last `</task>`). -/
def extractTaskBodyFromWrappedContent (content : Content) : String :=
  match content with
  | .arr ps => extractTaskBodyFromParts ps
  | _ => ""

/-- Backwards scan of `extractLatestPlainUserText` (input already
reversed). -/
def latestPlainUserTextAux : List Msg → String
  | [] => ""
  | m :: rest =>
    if m.role = some "user" && !isClineWrappedUserContent m.content then
      let text := jsTrim (extractUserText m.content)
      if text ≠ "" then text else latestPlainUserTextAux rest
    else latestPlainUserTextAux rest

/-- Port of `extractLatestPlainUserText`. -/
def extractLatestPlainUserText (messages : List Msg) : String :=
  latestPlainUserTextAux messages.reverse

/-- Port of `sanitizeMessageContentForCline`. -/
def sanitizeMessageContentForCline (msg : Msg) : Msg :=
  let role := msg.role.getD "user"
  let fallbackText :=
    if role = "assistant" then "(assistant message)"
    else if role = "tool" then "(tool output)"
    else "(no content)"
  let base := { msg with toolCalls := none, tool_calls := none }
  match msg.content with
  | .str s =>
      { base with content := if jsTrim s ≠ "" then .str s else .str fallbackText }
  | .arr ps =>
      let textParts := ps.filter fun p =>
        match p with | .text t => jsTrim t ≠ "" | _ => false
      let imageParts :=
        if role = "user" then
          ps.filter fun p => match p with | .image m d => m ≠ "" && d ≠ "" | _ => false
        else []
      let normalized := textParts ++ imageParts
      if textParts.isEmpty then
        { base with content := .arr (Part.text fallbackText :: normalized) }
      else { base with content := .arr normalized }
  | .nil => { base with content := .str fallbackText }
  | .other => { base with content := .str fallbackText }

/-- Port of `PriorTranscriptState`. -/
structure PriorTranscriptState where
  noOutputCountsByCommand : List (String × Nat) := []
  seenNoOutputCommands : List String := []
  seenToolResultSignatures : List String := []
  repeatedIdenticalToolResultsByCommand : List (String × Nat) := []
  inspectionCommandCountsByFamily : List (String × Nat) := []
  totalInspectionCallsSinceMutation : Nat := 0
  mutatingToolCallCount : Nat := 0

/-- Fuel-indexed scan for `TOOL_RESULT_BLOCK_REGEX.matchAll`: find each
`<tool_result>` whose opening is followed (after whitespace) by
`<tool_call>`, take the lazily-minimal trimmed summary up to the first
`</tool_call>` and the trimmed output up to the first `</tool_result>`,
and resume after the match; a failed start position is skipped. -/
def scanTRBAux : Nat → List Char → List (String × String)
  | 0, _ => []
  | fuel + 1, l =>
    match indexOfSub? l "<tool_result>" with
    | none => []
    | some i =>
      let rest1 := (l.drop (i + 13)).dropWhile isWs
      if "<tool_call>".data.isPrefixOf rest1 then
        let body := rest1.drop 11
        match indexOfSub? body "</tool_call>" with
        | some m =>
          let summary := String.mk (trimList (body.take m))
          let afterCC := body.drop (m + 12)
          match indexOfSub? afterCC "</tool_result>" with
          | some n =>
            (summary, String.mk (trimList (afterCC.take n))) ::
              scanTRBAux fuel (afterCC.drop (n + 14))
          | none => []
        | none => []
      else scanTRBAux fuel (l.drop (i + 1))

/-- All tool-result blocks of a transcript, as (summary, output) pairs. -/
def scanToolResultBlocks (s : String) : List (String × String) :=
  scanTRBAux (s.data.length + 1) s.data

/-- The lines of a transcript (the `m` flag of the advisory-line
regexes splits at newlines). -/
def splitLines (s : String) : List String :=
  (s.data.splitOn '\n').map String.mk

/-- Digits to a natural number (model of `Number.parseInt` on a `\d+`
match). -/
def digitsToNat (ds : List Char) : Nat :=
  ds.foldl (fun n c => n * 10 + (c.toNat - 48)) 0

/-- Model of one line matching `^- (.+?) -> (\d+) no-output attempts(?:.*)?$`:
the lazily-minimal capture before the first viable ` -> \d+ no-output
attempts` is returned with the parsed count. -/
def noOutputLineParse? (line : String) : Option (String × Nat) :=
  if "- ".data.isPrefixOf line.data then
    let rest := line.data.drop 2
    (List.range rest.length).findSome? fun j =>
      let i := j + 1
      let after := rest.drop i
      if " -> ".data.isPrefixOf after then
        let ds := (after.drop 4).takeWhile isDigitCh
        if !ds.isEmpty && " no-output attempts".data.isPrefixOf (after.drop (4 + ds.length)) then
          some (String.mk (rest.take i), digitsToNat ds)
        else none
      else none
  else none

/-- Model of one line matching `^- (.+?) -> (\d+) identical tool results$`
(anchored: nothing may follow). -/
def identicalLineParse? (line : String) : Option (String × Nat) :=
  if "- ".data.isPrefixOf line.data then
    let rest := line.data.drop 2
    (List.range rest.length).findSome? fun j =>
      let i := j + 1
      let after := rest.drop i
      if " -> ".data.isPrefixOf after then
        let ds := (after.drop 4).takeWhile isDigitCh
        if !ds.isEmpty && after.drop (4 + ds.length) = " identical tool results".data then
          some (String.mk (rest.take i), digitsToNat ds)
        else none
      else none
  else none

/-- Model of one line matching
`^- (.+?) -> (\d+) inspection calls \((\d+) collapsed\)$` (anchored),
returning the family and the first (total) count the source uses. -/
def familyLineParse? (line : String) : Option (String × Nat) :=
  if "- ".data.isPrefixOf line.data then
    let rest := line.data.drop 2
    (List.range rest.length).findSome? fun j =>
      let i := j + 1
      let after := rest.drop i
      if " -> ".data.isPrefixOf after then
        let ds := (after.drop 4).takeWhile isDigitCh
        let tail := after.drop (4 + ds.length)
        if !ds.isEmpty && " inspection calls (".data.isPrefixOf tail then
          let tail2 := tail.drop " inspection calls (".data.length
          let ds2 := tail2.takeWhile isDigitCh
          if !ds2.isEmpty && tail2.drop ds2.length = " collapsed)".data then
            some (String.mk (rest.take i), digitsToNat ds)
          else none
        else none
      else none
  else none

/-- Processing of one scanned tool-result block inside
`buildPriorTranscriptState` (the second component carries the local
`inspectionCallsSinceMutation` variable). -/
def priorBlockStep (p : PriorTranscriptState × Nat) (blk : String × String) :
    PriorTranscriptState × Nat :=
  let st := p.1
  let since := p.2
  let summary := blk.1
  let output := blk.2
  if summary = "" then (st, since)
  else
    let st := { st with
      seenToolResultSignatures :=
        setAdd st.seenToolResultSignatures (summary ++ "\n" ++ output) }
    let tn := inferToolNameFromToolCallSummary summary
    let stSince :=
      if tn = some "edit" || tn = some "write" then
        ({ st with mutatingToolCallCount := st.mutatingToolCallCount + 1 }, 0)
      else (st, since)
    let st := stSince.1
    let since := stSince.2
    let st :=
      if output = "(no output)" then
        { st with
          noOutputCountsByCommand := setCounterAtLeast st.noOutputCountsByCommand summary 1,
          seenNoOutputCommands := setAdd st.seenNoOutputCommands summary }
      else st
    if tn = some "read" || tn = some "bash" then
      match detectInspectionToolFamily (tn.getD "") summary with
      | some family =>
          ({ st with
             inspectionCommandCountsByFamily :=
               incrementCounter st.inspectionCommandCountsByFamily family },
           since + 1)
      | none => (st, since)
    else (st, since)

/-- Port of `buildPriorTranscriptState`. -/
def buildPriorTranscriptState (baseTranscript : String) : PriorTranscriptState :=
  if jsTrim baseTranscript = "" then {}
  else
    let scanned := (scanToolResultBlocks baseTranscript).foldl priorBlockStep ({}, 0)
    let st := { scanned.1 with totalInspectionCallsSinceMutation := scanned.2 }
    let lines := splitLines baseTranscript
    let st := lines.foldl
      (fun st line =>
        match noOutputLineParse? line with
        | some sc =>
          let summary := jsTrim sc.1
          if summary ≠ "" && 0 < sc.2 then
            { st with
              noOutputCountsByCommand :=
                setCounterAtLeast st.noOutputCountsByCommand summary sc.2,
              seenNoOutputCommands := setAdd st.seenNoOutputCommands summary }
          else st
        | none => st)
      st
    let st := lines.foldl
      (fun st line =>
        match identicalLineParse? line with
        | some sc =>
          let summary := jsTrim sc.1
          if summary ≠ "" && 1 < sc.2 then
            { st with
              repeatedIdenticalToolResultsByCommand :=
                setCounterAtLeast st.repeatedIdenticalToolResultsByCommand summary (sc.2 - 1) }
          else st
        | none => st)
      st
    let st := lines.foldl
      (fun st line =>
        match familyLineParse? line with
        | some sc =>
          let family := jsTrim sc.1
          if family ≠ "" && 0 < sc.2 then
            { st with
              inspectionCommandCountsByFamily :=
                setCounterAtLeast st.inspectionCommandCountsByFamily family sc.2 }
          else st
        | none => st)
      st
    let reconstructedTotal : Nat :=
      (st.inspectionCommandCountsByFamily.map (fun kv => kv.2)).sum
    if st.totalInspectionCallsSinceMutation < reconstructedTotal then
      { st with totalInspectionCallsSinceMutation := reconstructedTotal }
    else st

/-- Per-family threshold `INSPECTION_LOOP_THRESHOLD`. -/
def INSPECTION_LOOP_THRESHOLD : Nat := 4

/-- Global threshold `GLOBAL_INSPECTION_LOOP_THRESHOLD`. -/
def GLOBAL_INSPECTION_LOOP_THRESHOLD : Nat := 8

/-- The mutable per-invocation state of the loop-detection state machine
(the prior-state copies plus the suppression map). -/
structure LoopState where
  noOutputCountsByCommand : List (String × Nat) := []
  seenNoOutputCommands : List String := []
  seenToolResultSignatures : List String := []
  repeatedIdenticalToolResultsByCommand : List (String × Nat) := []
  inspectionCommandCountsByFamily : List (String × Nat) := []
  suppressedInspectionCommandsByFamily : List (String × Nat) := []
  totalInspectionCallsSinceMutation : Nat := 0
  mutatingToolCallCount : Nat := 0

/-- A literal tool-result block of the transcript. -/
def toolResultBlock (summary text : String) : String :=
  "<tool_result>\n<tool_call>\n" ++ summary ++ "\n</tool_call>\n" ++ text ++ "\n</tool_result>"

/-- The replacement block for a repeated no-output call. -/
def noOutputLoopBlock (summary : String) : String :=
  toolResultBlock summary
    "(Loop detected: You have already run this command and it returned no output. Do not run it again. Try a different command or proceed.)"

/-- The replacement block for a repeated identical (summary, result)
signature. -/
def identicalLoopBlock (toolName summary : String) : String :=
  let actionVerb := if toolName = "read" then "read" else "run"
  let objectNoun := if toolName = "read" then "file" else "command"
  let hint :=
    if toolName = "bash" then
      " (If the command was cancelled, it likely requires interactive input. Use flags like \x27-y\x27 or \x27--force\x27 to bypass prompts.)"
    else ""
  toolResultBlock summary
    ("(Loop detected: You have already " ++ actionVerb ++ " this " ++ objectNoun ++
      " and received this exact output. Do not " ++ actionVerb ++
      " it again. Move on to the next step." ++ hint ++ ")")

/-- The replacement block for a family that exceeded the per-family
threshold. -/
def familyLoopBlock (summary : String) : String :=
  toolResultBlock summary
    "(Loop detected: You have inspected this 3+ times. Stop and proceed with edits.)"

/-- The replacement block for exceeding the global inspection threshold. -/
def globalLoopBlock (summary : String) (total : Nat) : String :=
  toolResultBlock summary
    ("(Loop detected: You have run " ++ toString total ++
      " inspection commands without making any edits. You are stuck in an inspection loop. STOP inspecting and START writing code. Use the write or edit tool to create files NOW.)")

/-- The per-tool-result step of the loop-detection state machine (lines
715–795 of the source): mutation reset, inspection counting, no-output
deduplication, identical-result deduplication, per-family threshold,
global threshold, pass-through.  Returns the updated state and the one
transcript part this tool result contributes. -/
def processToolResult (toolName toolCallSummary text : String) (st : LoopState) :
    LoopState × String :=
  let st :=
    if toolName = "edit" || toolName = "write" then
      { st with
        mutatingToolCallCount := st.mutatingToolCallCount + 1,
        inspectionCommandCountsByFamily := [],
        repeatedIdenticalToolResultsByCommand := [],
        noOutputCountsByCommand := [],
        seenNoOutputCommands := [],
        suppressedInspectionCommandsByFamily := [],
        totalInspectionCallsSinceMutation := 0 }
    else st
  let isNoOutputResult := text = "(no output)"
  let toolResultSignature := toolCallSummary ++ "\n" ++ text
  let inspectionFamily := detectInspectionToolFamily toolName toolCallSummary
  let stCnt :=
    match inspectionFamily with
    | some family =>
        let attempt := aget st.inspectionCommandCountsByFamily family + 1
        ({ st with
           inspectionCommandCountsByFamily :=
             aset st.inspectionCommandCountsByFamily family attempt,
           totalInspectionCallsSinceMutation := st.totalInspectionCallsSinceMutation + 1 },
         attempt)
    | none => (st, 0)
  let st := stCnt.1
  let inspectionAttemptCount := stCnt.2
  let afterDedup : LoopState → LoopState × String := fun st =>
    if inspectionFamily.isSome && INSPECTION_LOOP_THRESHOLD < inspectionAttemptCount then
      ({ st with
         suppressedInspectionCommandsByFamily :=
           incrementCounter st.suppressedInspectionCommandsByFamily (inspectionFamily.getD "") },
       familyLoopBlock toolCallSummary)
    else if inspectionFamily.isSome &&
        GLOBAL_INSPECTION_LOOP_THRESHOLD < st.totalInspectionCallsSinceMutation then
      ({ st with
         suppressedInspectionCommandsByFamily :=
           incrementCounter st.suppressedInspectionCommandsByFamily (inspectionFamily.getD "") },
       globalLoopBlock toolCallSummary st.totalInspectionCallsSinceMutation)
    else
      ({ st with
         seenToolResultSignatures := setAdd st.seenToolResultSignatures toolResultSignature },
       toolResultBlock toolCallSummary text)
  if isNoOutputResult then
    let st := { st with
      noOutputCountsByCommand := incrementCounter st.noOutputCountsByCommand toolCallSummary }
    if st.seenNoOutputCommands.contains toolCallSummary then
      (st, noOutputLoopBlock toolCallSummary)
    else
      afterDedup { st with seenNoOutputCommands := setAdd st.seenNoOutputCommands toolCallSummary }
  else if st.seenToolResultSignatures.contains toolResultSignature then
    ({ st with
       repeatedIdenticalToolResultsByCommand :=
         incrementCounter st.repeatedIdenticalToolResultsByCommand toolCallSummary },
     identicalLoopBlock toolName toolCallSummary)
  else afterDedup st

/-- Metadata test `hasToolCallMetadata` of the loop. -/
def hasToolCallMetadata (m : Msg) : Bool :=
  m.toolCalls.isSome || m.tool_calls.isSome ||
    (match m.content with
     | .arr ps => ps.any fun p => match p with | .toolCall .. => true | _ => false
     | _ => false)

/-- Resolution of a tool result's (name, summary) from its call id, with
the generic `"tool"` fallback. -/
def resolveToolIdentity (ctx : List (String × ToolCallContext)) (sourceMsg : Msg) :
    String × String :=
  let toolCallId :=
    match sourceMsg.toolCallId with
    | some v => some v
    | none =>
      match sourceMsg.tool_call_id with
      | some v => some v
      | none => sourceMsg.toolCallID
  let toolContext := toolCallId.bind fun id => ctxGet? ctx id
  let fallbackName :=
    match sourceMsg.toolName with
    | some s => s
    | none => "tool"
  let toolName :=
    match toolContext with
    | some c => if c.name ≠ "" then c.name else fallbackName
    | none => fallbackName
  let toolCallSummary :=
    match toolContext with
    | some c => if c.summary ≠ "" then c.summary else toolName
    | none => toolName
  (toolName, toolCallSummary)

/-- The message loop of `collapseContextMessagesForCline` (lines 671–799),
over (source, sanitized) message pairs, accumulating transcript parts. -/
def collapseLoop (ctx : List (String × ToolCallContext)) :
    List (Msg × Msg) → LoopState → List String × LoopState
  | [], st => ([], st)
  | (src, m) :: rest, st =>
    let role := m.role.getD "user"
    if role = "system" then collapseLoop ctx rest st
    else if role = "user" && isClineWrappedUserContent m.content then collapseLoop ctx rest st
    else if role = "assistant" && hasToolCallMetadata src then
      let assistantText := jsTrim (extractUserText m.content)
      if assistantText ≠ "" && assistantText ≠ "(assistant message)" then
        let out := collapseLoop ctx rest st
        (("[assistant]\n" ++ assistantText) :: out.1, out.2)
      else collapseLoop ctx rest st
    else
      let text := jsTrim (extractUserText m.content)
      if text = "" then collapseLoop ctx rest st
      else if role = "tool" then
        let ns := resolveToolIdentity ctx src
        let stepOut := processToolResult ns.1 ns.2 text st
        let out := collapseLoop ctx rest stepOut.1
        (stepOut.2 :: out.1, out.2)
      else
        let out := collapseLoop ctx rest st
        (("[" ++ role ++ "]\n" ++ text) :: out.1, out.2)

/-- One line of the no-output advisory note, with its branch-range diff
hint. -/
def noOutputNoteLine (kv : String × Nat) : String :=
  "- " ++ kv.1 ++ " -> " ++ toString kv.2 ++ " no-output attempts" ++
    (if hasWrongDiffScope kv.1 then
      " (branch-range `git diff ...` can be empty for local uncommitted changes; try `git diff` / `git diff --stat`)"
    else "")

/-- The appended advisory note about repeated no-output calls (lines
801–818), if applicable. -/
def noOutputNote? (noOutputCountsByCommand : List (String × Nat)) : Option String :=
  if ((noOutputCountsByCommand.filter fun kv => 1 < kv.2).isEmpty : Bool) then none
  else
    some ("[system_note]\n" ++
      ("Repeated no-output tool calls detected:\n" ++
        String.intercalate "\n"
          ((noOutputCountsByCommand.filter fun kv => 1 < kv.2).map noOutputNoteLine) ++
        "\nDo not repeat the same no-output command. Use an alternative command or proceed with available evidence."))

/-- The appended advisory note about repeated identical results (lines
820–831), if applicable. -/
def identicalNote? (repeatedIdenticalToolResultsByCommand : List (String × Nat)) :
    Option String :=
  if ((repeatedIdenticalToolResultsByCommand.filter fun kv => 0 < kv.2).isEmpty : Bool) then
    none
  else
    some ("[system_note]\n" ++
      ("Repeated identical tool results detected:\n" ++
        String.intercalate "\n"
          ((repeatedIdenticalToolResultsByCommand.filter fun kv => 0 < kv.2).map fun kv =>
            "- " ++ kv.1 ++ " -> " ++ toString (kv.2 + 1) ++ " identical tool results") ++
        "\nAvoid repeating the same read/output cycle. Move forward with edits or produce the final response."))

/-- One line of the per-family advisory note: the family's total count
(falling back to the suppressed count when the total reads as falsy 0) and
its collapsed count. -/
def suppressedNoteLine (famCounts : List (String × Nat)) (kv : String × Nat) : String :=
  "- " ++ kv.1 ++ " -> " ++
    toString (if aget famCounts kv.1 ≠ 0 then aget famCounts kv.1 else kv.2) ++
    " inspection calls (" ++ toString kv.2 ++ " collapsed)"

/-- The appended advisory note about suppressed inspection families
(lines 833–851), if applicable. -/
def suppressedNote? (suppressed famCounts : List (String × Nat)) (mutatingCount : Nat) :
    Option String :=
  if ((suppressed.filter fun kv => 0 < kv.2).isEmpty : Bool) then none
  else
    some ("[system_note]\n" ++
      ("Inspection-command loop detected:\n" ++
        String.intercalate "\n"
          ((suppressed.filter fun kv => 0 < kv.2).map (suppressedNoteLine famCounts)) ++
        "\n" ++
        (if mutatingCount = 0 then
          "No edit/write actions detected yet. Stop repeating diagnostics and either implement changes or provide the final response."
        else "Stop repeating diagnostics and continue with concrete progress.")))

/-- The appended global inspection-loop note (lines 853–867), if
applicable; mutually exclusive with the per-family note by construction. -/
def globalNote? (total mutatingCount : Nat) (suppressed : List (String × Nat)) :
    Option String :=
  if GLOBAL_INSPECTION_LOOP_THRESHOLD < total &&
      ((suppressed.filter fun kv => 0 < kv.2).isEmpty : Bool) then
    some ("[system_note]\n" ++
      ("GLOBAL INSPECTION LOOP: " ++ toString total ++
        " inspection commands without any file mutations.\n" ++
        (if mutatingCount = 0 then
          "You have NOT created or edited ANY files yet. STOP inspecting and START writing code immediately using the write or edit tool."
        else "You have made edits before but are now stuck inspecting again. Proceed with the next concrete change.")))
  else none

/-- Port of `CollapseContextOptions`. -/
structure CollapseContextOptions where
  ignoreWrappedHistory : Bool := false

/-- Backwards search for the most recent wrapped user message (the
idempotent-reuse scan of lines 625–643), over the sanitized messages
paired with their indices, already reversed. -/
def findWrappedAux (activeSkillName : Option String) :
    List (Nat × Msg) → Option (Nat × String)
  | [] => none
  | (i, m) :: rest =>
    if m.role = some "user" && isClineWrappedUserContent m.content then
      let candidateTranscript := extractTaskBodyFromWrappedContent m.content
      (match activeSkillName with
       | some skill =>
           if extractFirstSkillNameFromText candidateTranscript = some skill then
             some (i, candidateTranscript)
           else findWrappedAux activeSkillName rest
       | none => some (i, candidateTranscript))
    else findWrappedAux activeSkillName rest

/-- The initial loop state copied from a rehydrated prior state. -/
def loopStateOfPrior (prior : PriorTranscriptState) : LoopState :=
  { noOutputCountsByCommand := prior.noOutputCountsByCommand,
    seenNoOutputCommands := prior.seenNoOutputCommands,
    seenToolResultSignatures := prior.seenToolResultSignatures,
    repeatedIdenticalToolResultsByCommand := prior.repeatedIdenticalToolResultsByCommand,
    inspectionCommandCountsByFamily := prior.inspectionCommandCountsByFamily,
    suppressedInspectionCommandsByFamily := [],
    totalInspectionCallsSinceMutation := prior.totalInspectionCallsSinceMutation,
    mutatingToolCallCount := prior.mutatingToolCallCount }

/-- The active skill tag detected in the latest plain user turn. -/
def activeSkillOf (messages : List Msg) : Option String :=
  extractFirstSkillNameFromText
    (extractLatestPlainUserText (messages.map sanitizeMessageContentForCline))

/-- The matched wrapped user message (index and task body), when reuse is
enabled. -/
def wrappedOf (messages : List Msg) (options : CollapseContextOptions) :
    Option (Nat × String) :=
  if options.ignoreWrappedHistory then none
  else findWrappedAux (activeSkillOf messages)
    (messages.map sanitizeMessageContentForCline).enum.reverse

/-- The reused task body (empty when no wrapped message matched). -/
def baseTranscriptOf (messages : List Msg) (options : CollapseContextOptions) : String :=
  match wrappedOf messages options with
  | some p => p.2
  | none => ""

/-- The index after the matched wrapped message, where processing starts. -/
def startIndexOf (messages : List Msg) (options : CollapseContextOptions) : Nat :=
  match wrappedOf messages options with
  | some p => p.1 + 1
  | none => 0

/-- The skill-scoping advisory note. -/
def skillNote (skill : String) : String :=
  "[system_note]\n" ++
    ("Active skill from latest user request: " ++ skill ++
      "\nStay scoped to this skill and the latest user instruction. Do not start unrelated workflows unless explicitly requested.")

/-- The message loop run of one collapse invocation. -/
def collapseLoopRun (messages : List Msg) (options : CollapseContextOptions) :
    List String × LoopState :=
  collapseLoop (collectToolCallContext messages)
    ((messages.zip (messages.map sanitizeMessageContentForCline)).drop
      (startIndexOf messages options))
    (loopStateOfPrior (buildPriorTranscriptState (baseTranscriptOf messages options)))

/-- The advisory notes appended after the loop (lines 801–867). -/
def collapseNotes (stF : LoopState) : List String :=
  (noOutputNote? stF.noOutputCountsByCommand).toList ++
  (identicalNote? stF.repeatedIdenticalToolResultsByCommand).toList ++
  (suppressedNote? stF.suppressedInspectionCommandsByFamily
    stF.inspectionCommandCountsByFamily stF.mutatingToolCallCount).toList ++
  (globalNote? stF.totalInspectionCallsSinceMutation stF.mutatingToolCallCount
    stF.suppressedInspectionCommandsByFamily).toList

/-- The ordered transcript parts assembled by
`collapseContextMessagesForCline`: the reused task body, the skill note,
the processed new messages, then the advisory notes. -/
def collapseTranscriptParts (messages : List Msg) (options : CollapseContextOptions) :
    List String :=
  (if baseTranscriptOf messages options ≠ "" then [baseTranscriptOf messages options]
   else []) ++
  (match activeSkillOf messages with
   | some skill => [skillNote skill]
   | none => []) ++
  (collapseLoopRun messages options).1 ++
  collapseNotes (collapseLoopRun messages options).2

/-- The text of the first system message of the sanitized input (lines
613–614). -/
def systemTextOf (messages : List Msg) : String :=
  match (messages.map sanitizeMessageContentForCline).find? (fun m => m.role = some "system") with
  | some m => extractUserText m.content
  | none => ""

/-- The flattened transcript with its empty-conversation fallback (line
869). -/
def collapsedTranscript (messages : List Msg) (options : CollapseContextOptions) : String :=
  let joined := jsTrim (String.intercalate "\n\n" (collapseTranscriptParts messages options))
  if joined = "" then "(no conversation yet)" else joined

/-- Port of `collapseContextMessagesForCline`: the optional verbatim
system message followed by the single wrapped user turn. -/
def collapseContextMessagesForCline (messages : List Msg) (scaffold : ClineScaffold)
    (options : CollapseContextOptions) : List Msg :=
  (if jsTrim (systemTextOf messages) ≠ "" then
      [{ role := some "system", content := Content.str (systemTextOf messages) : Msg }]
    else []) ++
  [{ role := some "user",
     content := Content.arr
       (wrapUserMessageForCline (Content.str (collapsedTranscript messages options)) scaffold) :
     Msg }]

section ClaimInputs

/-- A tool-result message resolved through a call id. -/
def toolMsg (id text : String) : Msg :=
  { role := some "tool", toolCallId := some id, content := Content.str text }

/-- A tool-result message carrying only a direct tool name (no resolvable
call id). -/
def toolMsgNamed (tn text : String) : Msg :=
  { role := some "tool", toolName := some tn, content := Content.str text }

/-- An assistant turn carrying only tool calls and no residual text. -/
def asstMsg (calls : List RawCall) : Msg :=
  { role := some "assistant", toolCalls := some calls }

/-- A shell tool call. -/
def bashCall (id command : String) : RawCall :=
  { id := id, name := "bash", args := Js.jobj [("command", Js.jstr command)] }

/-- A read tool call. -/
def readCall (id path : String) : RawCall :=
  { id := id, name := "read", args := Js.jobj [("path", Js.jstr path)] }

/-- An edit tool call. -/
def editCall (id path : String) : RawCall :=
  { id := id, name := "edit", args := Js.jobj [("path", Js.jstr path)] }

/-- A scaffold holding exactly the marker texts the wrapped-envelope test
looks for. -/
def markerScaffold : ClineScaffold :=
  { taskProgress := "# task_progress List", environmentDetails := "<environment_details>" }

/-- A user message of the wrapped envelope shape with the given task
body. -/
def wrappedUserMsg (body : String) : Msg :=
  { role := some "user",
    content := Content.arr
      [Part.text ("<task>\n" ++ body ++ "\n</task>"),
       Part.text markerScaffold.taskProgress,
       Part.text markerScaffold.environmentDetails] }

/-- An already-collapsed task body that contains one no-output advisory
line (as a previous collapse would have left behind). -/
def advisoryBody : String := "- x -> 2 no-output attempts"

/-- The advisory note the rehydrator re-derives from `advisoryBody` and
the collapse appends again. -/
def advisoryNote : String :=
  "[system_note]\nRepeated no-output tool calls detected:\n- x -> 2 no-output attempts\nDo not repeat the same no-output command. Use an alternative command or proceed with available evidence."

/-- Message history with an identical read before and after a mutation:
read, duplicate read, edit, read again. -/
def mutationResetMsgs : List Msg :=
  [asstMsg [readCall "1" "a.txt", readCall "2" "a.txt", editCall "3" "a.txt",
            readCall "4" "a.txt"],
   toolMsg "1" "contents", toolMsg "2" "contents", toolMsg "3" "ok", toolMsg "4" "contents"]

/-- Prefix history for the rehydration check: three same-family
inspections, a mutation, then two more of the same family. -/
def rehydratePrefixMsgs : List Msg :=
  [asstMsg [bashCall "1" "cat f", bashCall "2" "cat f", bashCall "3" "cat f",
            editCall "4" "p", bashCall "5" "cat f", bashCall "6" "cat f"],
   toolMsg "1" "A", toolMsg "2" "B", toolMsg "3" "C", toolMsg "4" "ok",
   toolMsg "5" "D", toolMsg "6" "E"]

/-- Suffix history for the rehydration check: one more call of the same
family. -/
def rehydrateSuffixMsgs : List Msg :=
  [asstMsg [bashCall "7" "cat f"], toolMsg "7" "F"]

/-- The five directory-listing invocations of the per-family example. -/
def lsFamilyMsgs : List Msg :=
  [asstMsg [bashCall "1" "ls", bashCall "2" "ls -la", bashCall "3" "ls -la .",
            bashCall "4" "ls .", bashCall "5" "ls -al /tmp"],
   toolMsg "1" "A", toolMsg "2" "B", toolMsg "3" "C", toolMsg "4" "D", toolMsg "5" "E"]

/-- The same five invocations followed by a sixth call that normalizes to
the shared family. -/
def lsFamilyMsgs6 : List Msg :=
  [asstMsg [bashCall "1" "ls", bashCall "2" "ls -la", bashCall "3" "ls -la .",
            bashCall "4" "ls .", bashCall "5" "ls -al /tmp", bashCall "6" "ls -a"],
   toolMsg "1" "A", toolMsg "2" "B", toolMsg "3" "C", toolMsg "4" "D", toolMsg "5" "E",
   toolMsg "6" "F"]

/-- A canonically-encoded inspection invocation: a shell command or a file
read. -/
inductive InspCall where
  | bashC (command : String)
  | readC (path : String)

/-- The tool name of an inspection invocation. -/
def callName : InspCall → String
  | .bashC _ => "bash"
  | .readC _ => "read"

/-- The recorded arguments of an inspection invocation. -/
def callArgs : InspCall → Js
  | .bashC command => Js.jobj [("command", Js.jstr command)]
  | .readC path => Js.jobj [("path", Js.jstr path)]

/-- The canonical summary of an inspection invocation. -/
def callSummary : InspCall → String
  | .bashC command => "$ " ++ command
  | .readC path => "read " ++ path

/-- The loop-detection family of an inspection invocation. -/
def callFamily (c : InspCall) : Option String :=
  detectInspectionToolFamily (callName c) (callSummary c)

/-- One (call id, invocation, result text) entry. -/
abbrev InspEntry := String × InspCall × String

/-- The message history realising a list of inspection entries: one
assistant turn declaring all calls, then the tool results in order. -/
def inspEntryMsgs (l : List InspEntry) : List Msg :=
  asstMsg (l.map fun e => { id := e.1, name := callName e.2.1, args := callArgs e.2.1 }) ::
    l.map fun e => toolMsg e.1 e.2.2

/-- Nine inspection results in pairwise-distinct families in which the
ninth's (summary, text) signature collides with the first's because the
ninth summary embeds a newline. -/
def sigCollisionEntries : List InspEntry :=
  [("1", .bashC "ls", "A\n$ ls -x\nB"),
   ("2", .bashC "cat x", "t2"),
   ("3", .bashC "git diff", "t3"),
   ("4", .bashC "git status", "t4"),
   ("5", .bashC "git log", "t5"),
   ("6", .bashC "git show", "t6"),
   ("7", .bashC "pwd", "t7"),
   ("8", .bashC "which foo", "t8"),
   ("9", .bashC "ls\nA\n$ ls -x", "B")]

/-- Eight inspection invocations in pairwise-distinct families with
distinct results. -/
def distinctFamEntries8 : List InspEntry :=
  [("1", .bashC "ls", "t1"),
   ("2", .bashC "cat x", "t2"),
   ("3", .bashC "git diff", "t3"),
   ("4", .bashC "git status", "t4"),
   ("5", .bashC "git log", "t5"),
   ("6", .bashC "git show", "t6"),
   ("7", .bashC "pwd", "t7"),
   ("8", .bashC "which foo", "t8")]

/-- A ninth inspection invocation in yet another family. -/
def distinctFamEntry9 : InspEntry := ("9", .bashC "tree", "t9")

/-- The fixed tail of a per-family suppression block. -/
def famLoopSuffix : String :=
  "\n</tool_call>\n(Loop detected: You have inspected this 3+ times. Stop and proceed with edits.)\n</tool_result>"

/-- The task body the prefix collapse of the rehydration check produces:
its six tool-result blocks joined by blank lines. -/
def rehydratedBody : String :=
  String.intercalate "\n\n"
    [toolResultBlock "$ cat f" "A", toolResultBlock "$ cat f" "B",
     toolResultBlock "$ cat f" "C", toolResultBlock "edit p" "ok",
     toolResultBlock "$ cat f" "D", toolResultBlock "$ cat f" "E"]

/-- The message list of the split rehydration run: the collapsed prefix
followed by the raw suffix. -/
def rehydrateSplitMsgs : List Msg :=
  collapseContextMessagesForCline rehydratePrefixMsgs markerScaffold {} ++ rehydrateSuffixMsgs

end ClaimInputs

section Lemmas

/-- Dropping while a predicate holds is idempotent. -/
theorem dropWhile_dropWhile (p : Char → Bool) (l : List Char) :
    (l.dropWhile p).dropWhile p = l.dropWhile p := by
  induction l with
  | nil => rfl
  | cons c rest ih =>
    by_cases h : p c
    · simp [List.dropWhile, h, ih]
    · simp [List.dropWhile, h]

/-- The head of `dropWhile p l` does not satisfy `p`. -/
theorem head?_dropWhile (p : Char → Bool) (l : List Char) :
    ∀ c, (l.dropWhile p).head? = some c → p c = false := by
  induction l with
  | nil => intro c h; simp at h
  | cons x rest ih =>
    intro c h
    by_cases hx : p x
    · exact ih c (by simpa [List.dropWhile, hx] using h)
    · simp [List.dropWhile, hx] at h
      simp [← h, hx]

/-- If the head does not satisfy `p`, `dropWhile p` is the identity. -/
theorem dropWhile_eq_self (p : Char → Bool) (l : List Char)
    (h : ∀ c, l.head? = some c → p c = false) : l.dropWhile p = l := by
  cases l with
  | nil => rfl
  | cons x rest => simp [List.dropWhile, h x rfl]

/-- `dropWhile` keeps the last element when the result is nonempty. -/
theorem getLast?_dropWhile (p : Char → Bool) (l : List Char)
    (h : l.dropWhile p ≠ []) : (l.dropWhile p).getLast? = l.getLast? := by
  induction l with
  | nil => simp [List.dropWhile] at h
  | cons x rest ih =>
    by_cases hx : p x
    · have h' : rest.dropWhile p ≠ [] := by simpa [List.dropWhile, hx] using h
      have hr : rest ≠ [] := by
        intro he; rw [he] at h'; exact h' rfl
      have hlast : (x :: rest).getLast? = rest.getLast? := by
        cases rest with
        | nil => exact absurd rfl hr
        | cons y t => exact List.getLast?_cons_cons ..
      rw [show (x :: rest).dropWhile p = rest.dropWhile p by simp [List.dropWhile, hx],
        ih h', hlast]
    · simp [List.dropWhile, hx]

/-- Trimming is idempotent. -/
theorem trimList_idem (l : List Char) : trimList (trimList l) = trimList l := by
  unfold trimList
  set a := l.dropWhile isWs with ha
  set b := a.reverse.dropWhile isWs with hb
  by_cases hbe : b = []
  · simp [hbe]
  · have h1 : b.reverse.dropWhile isWs = b.reverse := by
      apply dropWhile_eq_self
      intro c hc
      rw [List.head?_reverse] at hc
      have h2 : b.getLast? = a.reverse.getLast? := getLast?_dropWhile _ _ (hb ▸ hbe)
      rw [h2, List.getLast?_reverse] at hc
      exact head?_dropWhile isWs l c (ha ▸ hc)
    rw [h1, List.reverse_reverse, hb, dropWhile_dropWhile]

/-- `jsTrim` is idempotent. -/
theorem jsTrim_idem (s : String) : jsTrim (jsTrim s) = jsTrim s :=
  congrArg String.mk (trimList_idem s.data)

/-- Data of a concatenation. -/
theorem data_append (a b : String) : (a ++ b).data = a.data ++ b.data := by
  cases a; cases b; rfl

/-- Strings with equal data are equal. -/
theorem string_ext {a b : String} (h : a.data = b.data) : a = b :=
  String.ext h

/-- Concatenation with a fixed left part preserves inequality. -/
theorem append_right_ne (x : String) {a b : String} (h : a ≠ b) : x ++ a ≠ x ++ b := by
  intro he
  apply h
  apply string_ext
  have := congrArg String.data he
  rw [data_append, data_append] at this
  exact List.append_cancel_left this

/-- If `e` is not a suffix of `c`, nothing of the form `x ++ e` equals `c`. -/
theorem append_ne_of_not_suffix {e c : String} (h : ¬ e.data <:+ c.data) (x : String) :
    x ++ e ≠ c := by
  intro he
  apply h
  refine ⟨x.data, ?_⟩
  rw [← data_append, he]

/-- Strings whose data start with different characters are different. -/
theorem ne_of_data_head {a b : String} {c d : Char} {ra rb : List Char}
    (ha : a.data = c :: ra) (hb : b.data = d :: rb) (h : c ≠ d) : a ≠ b := by
  intro he
  apply h
  have := congrArg String.data he
  rw [ha, hb] at this
  exact (List.cons.injEq _ _ _ _ ▸ this).1

/-- Regrouping of a tool-result block around its summary. -/
theorem toolResultBlock_eq (s t : String) :
    toolResultBlock s t =
      ("<tool_result>\n<tool_call>\n" ++ s) ++
        ("\n</tool_call>\n" ++ (t ++ "\n</tool_result>")) := by
  unfold toolResultBlock
  simp [String.append_assoc]

/-- A tool-result block never equals a system note. -/
theorem toolResultBlock_ne_sysnote (s t r : String) :
    toolResultBlock s t ≠ "[system_note]\n" ++ r := by
  apply ne_of_data_head (c := '<') (d := '[')
  · rw [toolResultBlock_eq, data_append, data_append]
    rfl
  · rw [data_append]
    rfl
  · decide

/-- Keys of a counter map. -/
def keysOf (m : List (String × Nat)) : List String := m.map Prod.fst

/-- Reading back a key just set. -/
theorem aget_aset_self (m : List (String × Nat)) (k : String) (v : Nat) :
    aget (aset m k v) k = v := by
  induction m with
  | nil => simp [aset, aget]
  | cons kv rest ih =>
    by_cases h : kv.1 = k
    · simp [aset, aget, h]
    · simpa [aset, aget, h] using ih

/-- Setting one key does not change another. -/
theorem aget_aset_ne (m : List (String × Nat)) {k k' : String} (v : Nat) (h : k' ≠ k) :
    aget (aset m k v) k' = aget m k' := by
  induction m with
  | nil => simp [aset, aget, Ne.symm h]
  | cons kv rest ih =>
    by_cases h0 : kv.1 = k
    · have hne : kv.1 ≠ k' := by rw [h0]; exact Ne.symm h
      simp [aset, aget, h0, hne, Ne.symm h]
    · by_cases h1 : kv.1 = k'
      · simp [aset, aget, h0, h1, h]
      · simpa [aset, aget, h0, h1] using ih

/-- A key not in the map reads as zero. -/
theorem aget_of_not_mem (m : List (String × Nat)) {k : String} (h : k ∉ keysOf m) :
    aget m k = 0 := by
  induction m with
  | nil => rfl
  | cons kv rest ih =>
    have h1 : kv.1 ≠ k := by
      intro he; exact h (by simp [keysOf, he])
    have h2 : k ∉ keysOf rest := by
      intro hm; exact h (by simp [keysOf] at hm ⊢; exact Or.inr hm)
    simpa [aget, h1] using ih h2

/-- Setting a fresh key appends it. -/
theorem aset_fresh (m : List (String × Nat)) {k : String} (v : Nat) (h : k ∉ keysOf m) :
    aset m k v = m ++ [(k, v)] := by
  induction m with
  | nil => rfl
  | cons kv rest ih =>
    have h1 : kv.1 ≠ k := by
      intro he; exact h (by simp [keysOf, he])
    have h2 : k ∉ keysOf rest := by
      intro hm; exact h (by simp [keysOf] at hm ⊢; exact Or.inr hm)
    simp [aset, h1, ih h2]

/-- Lookup across a concatenation whose left part misses the key. -/
theorem aget_append_of_not_mem (m1 m2 : List (String × Nat)) {k : String}
    (h : k ∉ keysOf m1) : aget (m1 ++ m2) k = aget m2 k := by
  induction m1 with
  | nil => rfl
  | cons kv rest ih =>
    have h1 : kv.1 ≠ k := by
      intro he; exact h (by simp [keysOf, he])
    have h2 : k ∉ keysOf rest := by
      intro hm; exact h (by simp [keysOf] at hm ⊢; exact Or.inr hm)
    simpa [aget, h1] using ih h2

/-- `List.contains` on strings decides membership. -/
theorem contains_eq (s : List String) (x : String) : s.contains x = decide (x ∈ s) :=
  List.elem_eq_mem x s

/-- `setAdd` on a fresh element appends it. -/
theorem setAdd_of_not_mem (s : List String) {x : String} (h : x ∉ s) :
    setAdd s x = s ++ [x] := by
  simp [setAdd, contains_eq, h]

/-- Membership before addition survives `setAdd`. -/
theorem mem_setAdd_of_mem (s : List String) {x y : String} (h : y ∈ s) :
    y ∈ setAdd s x := by
  unfold setAdd
  rw [contains_eq]
  by_cases hm : x ∈ s <;> simp [hm, h]

/-- The element added by `setAdd` is a member. -/
theorem mem_setAdd_self (s : List String) (x : String) : x ∈ setAdd s x := by
  unfold setAdd
  rw [contains_eq]
  by_cases hm : x ∈ s <;> simp [hm]

/-- Wrapping a plain (trimmed, nonempty) string yields exactly the three
text blocks with no image parts. -/
theorem wrapUserMessage_str (t : String) (sc : ClineScaffold)
    (h1 : jsTrim t = t) (h2 : t ≠ "") :
    wrapUserMessageForCline (Content.str t) sc =
      [Part.text ("<task>\n" ++ t ++ "\n</task>"), Part.text sc.taskProgress,
       Part.text sc.environmentDetails] := by
  simp [wrapUserMessageForCline, extractUserText, h1, h2]

/-- The flattened transcript is already trimmed. -/
theorem collapsedTranscript_trim (m : List Msg) (o : CollapseContextOptions) :
    jsTrim (collapsedTranscript m o) = collapsedTranscript m o := by
  unfold collapsedTranscript
  by_cases h : jsTrim (String.intercalate "\n\n" (collapseTranscriptParts m o)) = ""
  · simp only [h, if_pos rfl]
    decide
  · simp only [if_neg h, jsTrim_idem]

/-- The flattened transcript is nonempty. -/
theorem collapsedTranscript_ne (m : List Msg) (o : CollapseContextOptions) :
    collapsedTranscript m o ≠ "" := by
  unfold collapsedTranscript
  by_cases h : jsTrim (String.intercalate "\n\n" (collapseTranscriptParts m o)) = ""
  · simp only [h, if_pos rfl]
    decide
  · simpa only [if_neg h] using h

/-- The envelope produced by the collapse: an optional verbatim system
message followed by exactly one user message holding the task block, the
progress scaffold and the environment scaffold, in that order, and no
other parts. -/
theorem collapse_shape (ms : List Msg) (sc : ClineScaffold) (opts : CollapseContextOptions) :
    ∃ sys : List Msg,
      collapseContextMessagesForCline ms sc opts =
        sys ++ [{ role := some "user",
                  content := Content.arr
                    [Part.text ("<task>\n" ++ collapsedTranscript ms opts ++ "\n</task>"),
                     Part.text sc.taskProgress, Part.text sc.environmentDetails] }] ∧
      (sys = [] ∨ ∃ s, sys = [{ role := some "system", content := Content.str s }]) := by
  refine ⟨if jsTrim (systemTextOf ms) ≠ "" then
      [{ role := some "system", content := Content.str (systemTextOf ms) }] else [],
    ?_, ?_⟩
  · unfold collapseContextMessagesForCline
    rw [wrapUserMessage_str _ _ (collapsedTranscript_trim ms opts) (collapsedTranscript_ne ms opts)]
  · by_cases h : jsTrim (systemTextOf ms) ≠ ""
    · exact Or.inr ⟨systemTextOf ms, by simp [h]⟩
    · exact Or.inl (by simp [h])

/-- Any string produced by the no-output advisory note starts with the
system-note marker. -/
theorem noOutputNote?_shape {m : List (String × Nat)} {x : String}
    (h : noOutputNote? m = some x) : ∃ r, x = "[system_note]\n" ++ r := by
  unfold noOutputNote? at h
  split at h
  · cases h
  · exact ⟨_, (Option.some_inj.mp h).symm⟩

/-- Any string produced by the identical-results advisory note starts
with the system-note marker. -/
theorem identicalNote?_shape {m : List (String × Nat)} {x : String}
    (h : identicalNote? m = some x) : ∃ r, x = "[system_note]\n" ++ r := by
  unfold identicalNote? at h
  split at h
  · cases h
  · exact ⟨_, (Option.some_inj.mp h).symm⟩

/-- Any string produced by the per-family advisory note starts with the
system-note marker. -/
theorem suppressedNote?_shape {m1 m2 : List (String × Nat)} {c : Nat} {x : String}
    (h : suppressedNote? m1 m2 c = some x) : ∃ r, x = "[system_note]\n" ++ r := by
  unfold suppressedNote? at h
  split at h
  · cases h
  · exact ⟨_, (Option.some_inj.mp h).symm⟩

/-- Any string produced by the global-loop advisory note starts with the
system-note marker. -/
theorem globalNote?_shape {t c : Nat} {m : List (String × Nat)} {x : String}
    (h : globalNote? t c m = some x) : ∃ r, x = "[system_note]\n" ++ r := by
  unfold globalNote? at h
  split at h
  · exact ⟨_, (Option.some_inj.mp h).symm⟩
  · cases h

/-- Every appended advisory note starts with the system-note marker. -/
theorem collapseNotes_shape (st : LoopState) :
    ∀ x ∈ collapseNotes st, ∃ r, x = "[system_note]\n" ++ r := by
  intro x hx
  unfold collapseNotes at hx
  simp only [List.mem_append, Option.mem_toList, Option.mem_def] at hx
  rcases hx with ((h | h) | h) | h
  · exact noOutputNote?_shape h
  · exact identicalNote?_shape h
  · exact suppressedNote?_shape h
  · exact globalNote?_shape h

/-- No tool-result block occurs among the appended advisory notes. -/
theorem count_collapseNotes_block (st : LoopState) (s msg : String) :
    (collapseNotes st).count (toolResultBlock s msg) = 0 := by
  rw [List.count_eq_zero]
  intro hmem
  obtain ⟨r, hr⟩ := collapseNotes_shape st _ hmem
  exact toolResultBlock_ne_sysnote s msg r hr

/-- A message carrying only a direct tool name records no tool calls. -/
theorem msgCalls_toolMsgNamed (t s : String) : msgCalls (toolMsgNamed t s) = [] := rfl

/-- Messages without recorded calls leave the context accumulator
unchanged. -/
theorem collect_foldl_acc (l : List Msg)
    (h : ∀ m ∈ l, msgCalls m = []) (acc : List (String × ToolCallContext)) :
    l.foldl (fun byId msg => ctxInsertCalls byId (msgCalls msg)) acc = acc := by
  induction l generalizing acc with
  | nil => rfl
  | cons m rest ih =>
    rw [List.foldl_cons, h m (List.mem_cons_self m rest),
      show ctxInsertCalls acc [] = acc from rfl]
    exact ih (fun m' hm' => h m' (List.mem_cons_of_mem m hm')) acc

/-- Messages without recorded calls yield an empty context map. -/
theorem collect_eq_nil (l : List Msg) (h : ∀ m ∈ l, msgCalls m = []) :
    collectToolCallContext l = [] :=
  collect_foldl_acc l h []

/-- Sanitization leaves a resolved tool-result message with trimmed
nonempty text unchanged. -/
theorem sanitize_toolMsg (id t : String) (h1 : jsTrim t = t) (h2 : t ≠ "") :
    sanitizeMessageContentForCline (toolMsg id t) = toolMsg id t := by
  unfold sanitizeMessageContentForCline toolMsg
  simp [h1, h2]

/-- Sanitization leaves a named no-output tool result unchanged. -/
theorem sanitize_toolMsgNamed (t : String) :
    sanitizeMessageContentForCline (toolMsgNamed t "(no output)") =
      toolMsgNamed t "(no output)" := by
  unfold sanitizeMessageContentForCline toolMsgNamed
  simp [show jsTrim "(no output)" ≠ "" from by decide]

/-- The latest-plain-user-text scan of a history without user messages is
empty. -/
theorem latestPlain_nil (l : List Msg) (h : ∀ m ∈ l, m.role ≠ some "user") :
    latestPlainUserTextAux l = "" := by
  induction l with
  | nil => rfl
  | cons m rest ih =>
    unfold latestPlainUserTextAux
    rw [if_neg]
    · exact ih fun m' hm' => h m' (List.mem_cons_of_mem m hm')
    · simp [h m (List.mem_cons_self m rest)]

/-- The wrapped-history scan of a history without user messages finds
nothing. -/
theorem findWrapped_nil (sk : Option String) (l : List (Nat × Msg))
    (h : ∀ p ∈ l, p.2.role ≠ some "user") : findWrappedAux sk l = none := by
  induction l with
  | nil => rfl
  | cons p rest ih =>
    unfold findWrappedAux
    rw [if_neg]
    · exact ih fun p' hp' => h p' (List.mem_cons_of_mem p hp')
    · simp [h p (List.mem_cons_self p rest)]

/-- A pair drawn from a reversed enumeration has its second component in
the underlying list. -/
theorem mem_of_mem_enum_reverse {l : List Msg} {p : Nat × Msg}
    (hp : p ∈ l.enum.reverse) : p.2 ∈ l := by
  rw [List.mem_reverse] at hp
  exact List.getElem?_mem (List.mem_enum_iff_getElem?.mp hp)

/-- Zipping equal-length replications replicates the pair. -/
theorem zip_replicate_self {α β : Type} (n : Nat) (a : α) (b : β) :
    (List.replicate n a).zip (List.replicate n b) = List.replicate n (a, b) := by
  induction n with
  | zero => rfl
  | succ k ih => simp [List.replicate, ih]

/-- A duplicate no-output result is replaced by the stop message and
leaves the seen set unchanged. -/
theorem processToolResult_noOutput_dup (t : String) (st : LoopState)
    (hmut : (t = "edit" || t = "write") = false)
    (hseen : t ∈ st.seenNoOutputCommands) :
    (processToolResult t t "(no output)" st).2 = noOutputLoopBlock t ∧
    (processToolResult t t "(no output)" st).1.seenNoOutputCommands =
      st.seenNoOutputCommands := by
  unfold processToolResult
  rw [hmut]
  rcases hfam : detectInspectionToolFamily t t with _ | f <;>
    simp [hfam, contains_eq, hseen]

/-- A first no-output result from the empty state passes through
literally and marks its summary as seen. -/
theorem processToolResult_noOutput_first (t : String)
    (hmut : (t = "edit" || t = "write") = false) :
    (processToolResult t t "(no output)" ({} : LoopState)).2 =
      toolResultBlock t "(no output)" ∧
    t ∈ (processToolResult t t "(no output)" ({} : LoopState)).1.seenNoOutputCommands := by
  unfold processToolResult
  rw [hmut]
  rcases hfam : detectInspectionToolFamily t t with _ | f <;>
    simp [hfam, contains_eq, setAdd, aget, INSPECTION_LOOP_THRESHOLD,
      GLOBAL_INSPECTION_LOOP_THRESHOLD]

/-- One loop step on a named no-output tool result. -/
theorem collapseLoop_noOut_cons (t : String) (rest : List (Msg × Msg)) (st : LoopState) :
    collapseLoop [] ((toolMsgNamed t "(no output)", toolMsgNamed t "(no output)") :: rest) st =
      ((processToolResult t t "(no output)" st).2 ::
        (collapseLoop [] rest (processToolResult t t "(no output)" st).1).1,
       (collapseLoop [] rest (processToolResult t t "(no output)" st).1).2) := rfl

/-- Processing further duplicates of a seen no-output summary yields only
replacement blocks. -/
theorem c4_loop (t : String) (hmut : (t = "edit" || t = "write") = false) :
    ∀ (k : Nat) (st : LoopState), t ∈ st.seenNoOutputCommands →
    (collapseLoop []
        (List.replicate k (toolMsgNamed t "(no output)", toolMsgNamed t "(no output)")) st).1 =
      List.replicate k (noOutputLoopBlock t) := by
  intro k
  induction k with
  | zero => intro st _; rfl
  | succ n ih =>
    intro st hseen
    rw [List.replicate_succ, collapseLoop_noOut_cons]
    obtain ⟨hpart, hseen'⟩ := processToolResult_noOutput_dup t st hmut hseen
    rw [List.replicate_succ, hpart, ih _ (hseen' ▸ hseen)]

/-- Left cancellation for string concatenation. -/
theorem str_append_left_cancel {x a b : String} (h : x ++ a = x ++ b) : a = b := by
  apply string_ext
  have hd := congrArg String.data h
  rw [data_append, data_append] at hd
  exact List.append_cancel_left hd

/-- The summarizer renders a canonical inspection call as its canonical
summary. -/
theorem summarize_call (c : InspCall) :
    summarizeToolCall (callName c) (callArgs c) = callSummary c := by
  cases c <;> rfl

/-- Canonical inspection calls carry a nonempty tool name. -/
theorem callName_ne (c : InspCall) : callName c ≠ "" := by
  cases c
  · exact (by decide : ("bash" : String) ≠ "")
  · exact (by decide : ("read" : String) ≠ "")

/-- Canonical inspection summaries are nonempty. -/
theorem callSummary_ne (c : InspCall) : callSummary c ≠ "" := by
  cases c with
  | bashC a =>
    intro h
    have hd := congrArg String.data h
    rw [callSummary, data_append,
      show ("$ " : String).data = ['$', ' '] from rfl] at hd
    cases hd
  | readC p =>
    intro h
    have hd := congrArg String.data h
    rw [callSummary, data_append,
      show ("read " : String).data = ['r', 'e', 'a', 'd', ' '] from rfl] at hd
    cases hd

/-- Among classified canonical inspection calls, the summary determines
the family. -/
theorem callFamily_eq_of_summary {c1 c2 : InspCall} {f1 f2 : String}
    (h1 : callFamily c1 = some f1) (h2 : callFamily c2 = some f2)
    (hs : callSummary c1 = callSummary c2) : f1 = f2 := by
  cases c1 with
  | bashC a =>
    cases c2 with
    | bashC b =>
      have hab : a = b := str_append_left_cancel (x := "$ ") hs
      subst hab
      rw [h1] at h2
      exact Option.some_inj.mp h2
    | readC p =>
      exfalso
      have hd := congrArg String.data hs
      rw [callSummary, callSummary, data_append, data_append,
        show ("$ " : String).data = ['$', ' '] from rfl,
        show ("read " : String).data = ['r', 'e', 'a', 'd', ' '] from rfl] at hd
      simp at hd
  | readC p =>
    cases c2 with
    | bashC b =>
      exfalso
      have hd := congrArg String.data hs
      rw [callSummary, callSummary, data_append, data_append,
        show ("$ " : String).data = ['$', ' '] from rfl,
        show ("read " : String).data = ['r', 'e', 'a', 'd', ' '] from rfl] at hd
      simp at hd
    | readC q =>
      have hpq : p = q := str_append_left_cancel (x := "read ") hs
      subst hpq
      rw [h1] at h2
      exact Option.some_inj.mp h2

/-- Distinct families force distinct summaries for classified canonical
calls. -/
theorem sums_nodup {l : List InspEntry} (fam : InspEntry → String)
    (hf : ∀ e ∈ l, callFamily e.2.1 = some (fam e))
    (hnd : (l.map fam).Nodup) : (l.map fun e => callSummary e.2.1).Nodup := by
  have h1 : l.Pairwise fun a b => fam a ≠ fam b := List.pairwise_map.mp hnd
  refine List.pairwise_map.mpr (h1.imp_of_mem ?_)
  intro a b ha hb hab hsum
  exact hab (callFamily_eq_of_summary (hf a ha) (hf b hb) hsum)

/-- Setting a fresh key in the context map appends it. -/
theorem ctxSet_fresh (m : List (String × ToolCallContext)) {k : String} (v : ToolCallContext)
    (h : k ∉ m.map Prod.fst) : ctxSet m k v = m ++ [(k, v)] := by
  induction m with
  | nil => rfl
  | cons kv rest ih =>
    have h1 : kv.1 ≠ k := by
      intro he; exact h (by simp [he])
    have h2 : k ∉ rest.map Prod.fst := by
      intro hm; exact h (by simp at hm ⊢; exact Or.inr hm)
    simp [ctxSet, h1, ih h2]

/-- Inserting calls with pairwise-distinct fresh ids appends their
contexts in order. -/
theorem ctxInsertCalls_fresh :
    ∀ (cl : List RawCall) (acc : List (String × ToolCallContext)),
    (cl.map RawCall.id).Nodup → (∀ c ∈ cl, c.id ∉ acc.map Prod.fst) →
    ctxInsertCalls acc cl =
      acc ++ cl.map fun c =>
        (c.id, { name := c.name, summary := summarizeToolCall c.name c.args }) := by
  intro cl
  induction cl with
  | nil => intro acc _ _; simp [ctxInsertCalls]
  | cons c rest ih =>
    intro acc hnd hfresh
    have hstep : ctxInsertCalls acc (c :: rest) =
        ctxInsertCalls
          (ctxSet acc c.id { name := c.name, summary := summarizeToolCall c.name c.args })
          rest := rfl
    rw [hstep, ctxSet_fresh acc _ (hfresh c (List.mem_cons_self c rest))]
    have hnd' : (rest.map RawCall.id).Nodup := (List.nodup_cons.mp (by simpa using hnd)).2
    have hhead : c.id ∉ rest.map RawCall.id := (List.nodup_cons.mp (by simpa using hnd)).1
    rw [ih _ hnd' ?_]
    · simp
    · intro c' hc'
      simp only [List.map_append, List.mem_append]
      intro hm
      rcases hm with hm | hm
      · exact hfresh c' (List.mem_cons_of_mem c hc') hm
      · simp at hm
        exact hhead (hm ▸ List.mem_map_of_mem RawCall.id hc')

/-- Lookup in a context map built from entries with pairwise-distinct
ids. -/
theorem ctxGet?_map_nodup (L : List InspEntry) (g : InspEntry → ToolCallContext)
    (hnd : (L.map fun e => e.1).Nodup) :
    ∀ e ∈ L, ctxGet? (L.map fun e0 => (e0.1, g e0)) e.1 = some (g e) := by
  induction L with
  | nil => intro e he; cases he
  | cons a rest ih =>
    intro e he
    rcases List.mem_cons.mp he with rfl | hmem
    · simp [ctxGet?]
    · have hhead : a.1 ∉ rest.map fun e => e.1 := (List.nodup_cons.mp (by simpa using hnd)).1
      have hne : a.1 ≠ e.1 := by
        intro hh
        exact hhead (hh ▸ List.mem_map_of_mem _ hmem)
      have htail := ih (List.nodup_cons.mp (by simpa using hnd)).2 e hmem
      simpa [ctxGet?, hne] using htail

/-- A resolved tool message carries no recorded calls of its own. -/
theorem msgCalls_toolMsg (id t : String) : msgCalls (toolMsg id t) = [] := rfl

/-- The recorded calls of a call-only assistant turn with truthy ids and
names. -/
theorem msgCalls_asst (calls : List RawCall) (h : ∀ c ∈ calls, c.id ≠ "" ∧ c.name ≠ "") :
    msgCalls (asstMsg calls) = calls := by
  unfold msgCalls asstMsg
  simp only [partCalls, snakeCalls, Option.getD_some, Option.getD_none]
  rw [List.filter_eq_self.mpr]
  · simp
  · intro c hc
    simp [(h c hc).1, (h c hc).2]

/-- Regrouping of the per-family suppression block around its summary. -/
theorem familyLoopBlock_eq (s : String) :
    familyLoopBlock s = ("<tool_result>\n<tool_call>\n" ++ s) ++ famLoopSuffix := by
  unfold familyLoopBlock
  rw [toolResultBlock_eq]
  congr 1

/-- A family detection succeeds only for the read and bash tools. -/
theorem detect_name {n s f : String} (h : detectInspectionToolFamily n s = some f) :
    n = "read" ∨ n = "bash" := by
  by_cases h1 : n = "read"
  · exact Or.inl h1
  · by_cases h2 : n = "bash"
    · exact Or.inr h2
    · unfold detectInspectionToolFamily at h
      rw [if_neg h1, if_pos h2] at h
      cases h

set_option maxRecDepth 20000 in
/-- No per-family suppression block occurs among the parts of the
five-listing example. -/
theorem lsFamily_no_suppression :
    ∀ s : String, familyLoopBlock s ∉ collapseTranscriptParts lsFamilyMsgs {} := by
  have hparts : collapseTranscriptParts lsFamilyMsgs {} =
      [toolResultBlock "$ ls" "A", toolResultBlock "$ ls -la" "B",
       toolResultBlock "$ ls -la ." "C", toolResultBlock "$ ls ." "D",
       toolResultBlock "$ ls -al /tmp" "E"] := by decide
  intro s hmem
  rw [hparts] at hmem
  simp only [List.mem_cons, List.not_mem_nil, or_false] at hmem
  rcases hmem with h | h | h | h | h <;>
    · rw [familyLoopBlock_eq] at h
      exact append_ne_of_not_suffix (by decide) _ h

/-- Appending a singleton keeps earlier elements distinct from it. -/
theorem not_mem_of_append_singleton {α : Type} {l : List α} {x : α}
    (h : (l ++ [x]).Nodup) : x ∉ l := by
  intro hx
  obtain ⟨-, -, hdisj⟩ := List.nodup_append.mp h
  exact hdisj hx (List.mem_singleton_self x)

/-- Intercalating a singleton is the singleton's element. -/
theorem intercalate_singleton (x : String) : String.intercalate "\n" [x] = x := rfl

/-- Zipping a list with its image pairs each element with its image. -/
theorem zip_map_self {α β : Type} (f : α → β) (l : List α) :
    l.zip (l.map f) = l.map fun a => (a, f a) := by
  induction l with
  | nil => rfl
  | cons a rest ih => simp [ih]

/-- Keys distribute over context-free append. -/
theorem keysOf_append (a b : List (String × Nat)) :
    keysOf (a ++ b) = keysOf a ++ keysOf b :=
  List.map_append Prod.fst a b

/-- Lookup of a singleton map at its own key. -/
theorem aget_single (k : String) (v : Nat) : aget [(k, v)] k = v := by
  simp [aget]

/-- Canonical inspection tool names are never mutating. -/
theorem callName_not_mut (c : InspCall) :
    (callName c = "edit" || callName c = "write") = false := by
  cases c
  · exact (by decide : (("bash" : String) = "edit" || ("bash" : String) = "write") = false)
  · exact (by decide : (("read" : String) = "edit" || ("read" : String) = "write") = false)

/-- The empty prior transcript rehydrates to the empty loop state. -/
theorem initialState_empty : loopStateOfPrior (buildPriorTranscriptState "") = {} := rfl

/-- Resolution of a tool message through a context entry with truthy name
and summary. -/
theorem resolveToolIdentity_toolMsg (ctx : List (String × ToolCallContext)) (id t : String)
    (c : ToolCallContext) (hget : ctxGet? ctx id = some c)
    (hn : c.name ≠ "") (hs : c.summary ≠ "") :
    resolveToolIdentity ctx (toolMsg id t) = (c.name, c.summary) := by
  unfold resolveToolIdentity toolMsg
  simp [hget, hn, hs]

/-- The context map harvested from a canonical inspection history. -/
theorem collect_inspEntryMsgs (L : List InspEntry)
    (hidnd : (L.map fun e => e.1).Nodup) (hid : ∀ e ∈ L, e.1 ≠ "") :
    collectToolCallContext (inspEntryMsgs L) =
      L.map fun e =>
        (e.1, { name := callName e.2.1, summary := callSummary e.2.1 : ToolCallContext }) := by
  unfold collectToolCallContext inspEntryMsgs
  rw [List.foldl_cons]
  rw [collect_foldl_acc (L.map fun e => toolMsg e.1 e.2.2) ?htools]
  case htools =>
    intro m hm
    obtain ⟨e, he, rfl⟩ := List.mem_map.mp hm
    exact msgCalls_toolMsg e.1 e.2.2
  rw [msgCalls_asst _ ?hcalls]
  case hcalls =>
    intro c hc
    obtain ⟨e, he, rfl⟩ := List.mem_map.mp hc
    exact ⟨hid e he, callName_ne e.2.1⟩
  rw [ctxInsertCalls_fresh _ [] ?hnd ?hfresh]
  case hnd =>
    rw [List.map_map]
    simpa [Function.comp] using hidnd
  case hfresh => intro c hc; simp
  rw [List.nil_append, List.map_map]
  apply List.map_congr_left
  intro e he
  simp [Function.comp, summarize_call]

/-- No sanitized message of a canonical inspection history is a user
turn. -/
theorem inspEntry_roles (l : List InspEntry) :
    ∀ m ∈ (inspEntryMsgs l).map sanitizeMessageContentForCline, m.role ≠ some "user" := by
  intro m hm
  obtain ⟨m0, hm0, rfl⟩ := List.mem_map.mp hm
  rw [inspEntryMsgs] at hm0
  rcases List.mem_cons.mp hm0 with rfl | hmem
  · show (some "assistant" : Option String) ≠ some "user"
    decide
  · obtain ⟨e, he, rfl⟩ := List.mem_map.mp hmem
    show (some "tool" : Option String) ≠ some "user"
    decide

/-- A canonical inspection history matches no wrapped user message. -/
theorem wrappedOf_inspEntry (l : List InspEntry) :
    wrappedOf (inspEntryMsgs l) {} = none := by
  unfold wrappedOf
  rw [if_neg (by decide : ¬ ({} : CollapseContextOptions).ignoreWrappedHistory = true)]
  apply findWrapped_nil
  intro p hp
  exact inspEntry_roles l p.2 (mem_of_mem_enum_reverse hp)

/-- A canonical inspection history carries no active skill. -/
theorem activeSkillOf_inspEntry (l : List InspEntry) :
    activeSkillOf (inspEntryMsgs l) = none := by
  unfold activeSkillOf extractLatestPlainUserText
  rw [latestPlain_nil]
  · rfl
  · intro m hm
    rw [List.mem_reverse] at hm
    exact inspEntry_roles l m hm

/-- A canonical inspection history reuses no task body. -/
theorem baseTranscriptOf_inspEntry (l : List InspEntry) :
    baseTranscriptOf (inspEntryMsgs l) {} = "" := by
  unfold baseTranscriptOf
  rw [wrappedOf_inspEntry]

/-- Processing of a canonical inspection history starts at its head. -/
theorem startIndexOf_inspEntry (l : List InspEntry) :
    startIndexOf (inspEntryMsgs l) {} = 0 := by
  unfold startIndexOf
  rw [wrappedOf_inspEntry]

/-- A call-only assistant turn contributes nothing to the loop. -/
theorem collapseLoop_asst_cons (ctx : List (String × ToolCallContext)) (calls : List RawCall)
    (rest : List (Msg × Msg)) (st : LoopState) :
    collapseLoop ctx ((asstMsg calls, sanitizeMessageContentForCline (asstMsg calls)) :: rest) st =
      collapseLoop ctx rest st := rfl

/-- One loop step on a resolved tool message with trimmed nonempty text. -/
theorem collapseLoop_tool_cons (ctx : List (String × ToolCallContext)) (id t n s : String)
    (rest : List (Msg × Msg)) (st : LoopState)
    (h1 : jsTrim t = t) (h2 : t ≠ "")
    (hres : resolveToolIdentity ctx (toolMsg id t) = (n, s)) :
    collapseLoop ctx ((toolMsg id t, toolMsg id t) :: rest) st =
      ((processToolResult n s t st).2 ::
        (collapseLoop ctx rest (processToolResult n s t st).1).1,
       (collapseLoop ctx rest (processToolResult n s t st).1).2) := by
  show (if jsTrim (jsTrim t) = "" then collapseLoop ctx rest st
    else
      ((processToolResult (resolveToolIdentity ctx (toolMsg id t)).1
          (resolveToolIdentity ctx (toolMsg id t)).2 (jsTrim (jsTrim t)) st).2 ::
        (collapseLoop ctx rest
          (processToolResult (resolveToolIdentity ctx (toolMsg id t)).1
            (resolveToolIdentity ctx (toolMsg id t)).2 (jsTrim (jsTrim t)) st).1).1,
       (collapseLoop ctx rest
          (processToolResult (resolveToolIdentity ctx (toolMsg id t)).1
            (resolveToolIdentity ctx (toolMsg id t)).2 (jsTrim (jsTrim t)) st).1).2)) = _
  rw [jsTrim_idem, h1, if_neg h2, hres]

/-- The loop distributes over concatenation of message lists, threading
the state. -/
theorem collapseLoop_append (ctx : List (String × ToolCallContext)) :
    ∀ (a b : List (Msg × Msg)) (st : LoopState),
    collapseLoop ctx (a ++ b) st =
      ((collapseLoop ctx a st).1 ++ (collapseLoop ctx b (collapseLoop ctx a st).2).1,
       (collapseLoop ctx b (collapseLoop ctx a st).2).2) := by
  intro a
  induction a with
  | nil => intro b st; rfl
  | cons p rest ih =>
    intro b st
    obtain ⟨src, m⟩ := p
    rw [List.cons_append]
    simp only [collapseLoop]
    repeat' split
    all_goals simp [ih]

/-- One fresh below-threshold inspection step: exact successor state and
literal pass-through. -/
theorem processToolResult_fresh (nm s t f : String)
    (NO : List (String × Nat)) (SN SG : List String) (R FC : List (String × Nat)) (n : Nat)
    (hmut : (nm = "edit" || nm = "write") = false)
    (hfam : detectInspectionToolFamily nm s = some f)
    (hfamF : f ∉ keysOf FC)
    (hsumS : s ∉ SN) (hsumN : s ∉ keysOf NO)
    (hsigG : s ++ "\n" ++ t ∉ SG)
    (hn : n + 1 ≤ 8) :
    processToolResult nm s t
      { noOutputCountsByCommand := NO, seenNoOutputCommands := SN,
        seenToolResultSignatures := SG, repeatedIdenticalToolResultsByCommand := R,
        inspectionCommandCountsByFamily := FC, suppressedInspectionCommandsByFamily := [],
        totalInspectionCallsSinceMutation := n, mutatingToolCallCount := 0 } =
      ({ noOutputCountsByCommand := NO ++ (if t = "(no output)" then [(s, 1)] else []),
         seenNoOutputCommands := SN ++ (if t = "(no output)" then [s] else []),
         seenToolResultSignatures := SG ++ [s ++ "\n" ++ t],
         repeatedIdenticalToolResultsByCommand := R,
         inspectionCommandCountsByFamily := FC ++ [(f, 1)],
         suppressedInspectionCommandsByFamily := [],
         totalInspectionCallsSinceMutation := n + 1, mutatingToolCallCount := 0 },
       toolResultBlock s t) := by
  have hgl : ¬ (GLOBAL_INSPECTION_LOOP_THRESHOLD < n + 1) := by
    unfold GLOBAL_INSPECTION_LOOP_THRESHOLD
    omega
  unfold processToolResult
  rw [hmut]
  simp only [Bool.false_eq_true, if_false, hfam]
  by_cases ht : t = "(no output)"
  · subst ht
    simp [contains_eq, hsumS, hsigG, hgl, INSPECTION_LOOP_THRESHOLD,
      incrementCounter, aget_of_not_mem FC hfamF, aset_fresh FC 1 hfamF,
      aget_of_not_mem NO hsumN, aset_fresh NO 1 hsumN,
      setAdd_of_not_mem SN hsumS, setAdd_of_not_mem SG hsigG]
  · simp [ht, contains_eq, hsigG, hgl, INSPECTION_LOOP_THRESHOLD,
      aget_of_not_mem FC hfamF, aset_fresh FC 1 hfamF,
      setAdd_of_not_mem SG hsigG]

/-- The ninth fresh inspection step from total 8: the global replacement
block and the suppression counter. -/
theorem processToolResult_global (nm s t f : String)
    (NO : List (String × Nat)) (SN SG : List String) (R FC : List (String × Nat))
    (hmut : (nm = "edit" || nm = "write") = false)
    (hfam : detectInspectionToolFamily nm s = some f)
    (hfamF : f ∉ keysOf FC)
    (hsumS : s ∉ SN) (hsumN : s ∉ keysOf NO)
    (hsigG : s ++ "\n" ++ t ∉ SG) :
    processToolResult nm s t
      { noOutputCountsByCommand := NO, seenNoOutputCommands := SN,
        seenToolResultSignatures := SG, repeatedIdenticalToolResultsByCommand := R,
        inspectionCommandCountsByFamily := FC, suppressedInspectionCommandsByFamily := [],
        totalInspectionCallsSinceMutation := 8, mutatingToolCallCount := 0 } =
      ({ noOutputCountsByCommand := NO ++ (if t = "(no output)" then [(s, 1)] else []),
         seenNoOutputCommands := SN ++ (if t = "(no output)" then [s] else []),
         seenToolResultSignatures := SG,
         repeatedIdenticalToolResultsByCommand := R,
         inspectionCommandCountsByFamily := FC ++ [(f, 1)],
         suppressedInspectionCommandsByFamily := [(f, 1)],
         totalInspectionCallsSinceMutation := 9, mutatingToolCallCount := 0 },
       globalLoopBlock s 9) := by
  unfold processToolResult
  rw [hmut]
  simp only [Bool.false_eq_true, if_false, hfam]
  by_cases ht : t = "(no output)"
  · subst ht
    simp [contains_eq, hsumS, hsigG, INSPECTION_LOOP_THRESHOLD,
      GLOBAL_INSPECTION_LOOP_THRESHOLD, incrementCounter, aget, aset,
      aget_of_not_mem FC hfamF, aset_fresh FC 1 hfamF,
      aget_of_not_mem NO hsumN, aset_fresh NO 1 hsumN,
      setAdd_of_not_mem SN hsumS]
  · simp [ht, contains_eq, hsigG, INSPECTION_LOOP_THRESHOLD,
      GLOBAL_INSPECTION_LOOP_THRESHOLD, incrementCounter, aget, aset,
      aget_of_not_mem FC hfamF, aset_fresh FC 1 hfamF]

/-- The loop over fresh, below-threshold inspection entries: every result
passes through literally and the final state records each family,
summary, and signature exactly once. -/
theorem collapseLoop_fresh (ctx : List (String × ToolCallContext)) (fam : InspEntry → String) :
    ∀ (l : List InspEntry) (NO : List (String × Nat)) (SN SG : List String)
      (R FC : List (String × Nat)) (n : Nat),
    (∀ e ∈ l, resolveToolIdentity ctx (toolMsg e.1 e.2.2) =
      (callName e.2.1, callSummary e.2.1)) →
    (∀ e ∈ l, callFamily e.2.1 = some (fam e)) →
    (∀ e ∈ l, fam e ∉ keysOf FC) →
    (l.map fam).Nodup →
    (∀ e ∈ l, callSummary e.2.1 ∉ SN) →
    (∀ e ∈ l, callSummary e.2.1 ∉ keysOf NO) →
    (l.map fun e => callSummary e.2.1).Nodup →
    (∀ e ∈ l, callSummary e.2.1 ++ "\n" ++ e.2.2 ∉ SG) →
    (l.map fun e => callSummary e.2.1 ++ "\n" ++ e.2.2).Nodup →
    (∀ e ∈ l, jsTrim e.2.2 = e.2.2 ∧ e.2.2 ≠ "") →
    n + l.length ≤ 8 →
    collapseLoop ctx (l.map fun e => (toolMsg e.1 e.2.2, toolMsg e.1 e.2.2))
      { noOutputCountsByCommand := NO, seenNoOutputCommands := SN,
        seenToolResultSignatures := SG, repeatedIdenticalToolResultsByCommand := R,
        inspectionCommandCountsByFamily := FC, suppressedInspectionCommandsByFamily := [],
        totalInspectionCallsSinceMutation := n, mutatingToolCallCount := 0 } =
      (l.map fun e => toolResultBlock (callSummary e.2.1) e.2.2,
       { noOutputCountsByCommand :=
           NO ++ (l.filter fun e => e.2.2 = "(no output)").map fun e => (callSummary e.2.1, 1),
         seenNoOutputCommands :=
           SN ++ (l.filter fun e => e.2.2 = "(no output)").map fun e => callSummary e.2.1,
         seenToolResultSignatures := SG ++ l.map fun e => callSummary e.2.1 ++ "\n" ++ e.2.2,
         repeatedIdenticalToolResultsByCommand := R,
         inspectionCommandCountsByFamily := FC ++ l.map fun e => (fam e, 1),
         suppressedInspectionCommandsByFamily := [],
         totalInspectionCallsSinceMutation := n + l.length, mutatingToolCallCount := 0 }) := by
  intro l
  induction l with
  | nil =>
    intro NO SN SG R FC n _ _ _ _ _ _ _ _ _ _ _
    simp [collapseLoop]
  | cons e rest ih =>
    intro NO SN SG R FC n hres hfam hfamF hfamnd hsumS hsumN hsumnd hsigG hsignd htxt hn
    have hmem : e ∈ e :: rest := List.mem_cons_self e rest
    rw [List.map_cons] at hfamnd hsumnd hsignd
    rw [List.length_cons] at hn
    have hfamnd' := List.nodup_cons.mp hfamnd
    have hsumnd' := List.nodup_cons.mp hsumnd
    have hsignd' := List.nodup_cons.mp hsignd
    rw [List.map_cons,
      collapseLoop_tool_cons ctx e.1 e.2.2 (callName e.2.1) (callSummary e.2.1) _ _
        (htxt e hmem).1 (htxt e hmem).2 (hres e hmem),
      processToolResult_fresh (callName e.2.1) (callSummary e.2.1) e.2.2 (fam e) NO SN SG R FC n
        (callName_not_mut e.2.1) (hfam e hmem) (hfamF e hmem) (hsumS e hmem) (hsumN e hmem)
        (hsigG e hmem) (by omega)]
    dsimp only
    rw [ih (NO ++ if e.2.2 = "(no output)" then [(callSummary e.2.1, 1)] else [])
        (SN ++ if e.2.2 = "(no output)" then [callSummary e.2.1] else [])
        (SG ++ [callSummary e.2.1 ++ "\n" ++ e.2.2]) R (FC ++ [(fam e, 1)]) (n + 1)
        ?hres' ?hfam' ?hfamF' ?hfamnd2 ?hsumS' ?hsumN' ?hsumnd2 ?hsigG' ?hsignd2 ?htxt' ?hn']
    case hres' => intro e' he'; exact hres e' (List.mem_cons_of_mem e he')
    case hfam' => intro e' he'; exact hfam e' (List.mem_cons_of_mem e he')
    case hfamF' =>
      intro e' he'
      rw [keysOf_append]
      intro hm
      rcases List.mem_append.mp hm with hm | hm
      · exact hfamF e' (List.mem_cons_of_mem e he') hm
      · have : fam e' = fam e := by simpa [keysOf] using hm
        exact hfamnd'.1 (this ▸ List.mem_map_of_mem fam he')
    case hfamnd2 => exact hfamnd'.2
    case hsumS' =>
      intro e' he'
      intro hm
      rcases List.mem_append.mp hm with hm | hm
      · exact hsumS e' (List.mem_cons_of_mem e he') hm
      · rcases ht : decide (e.2.2 = "(no output)") with _ | _
        · rw [if_neg (of_decide_eq_false ht)] at hm
          cases hm
        · rw [if_pos (of_decide_eq_true ht)] at hm
          have : callSummary e'.2.1 = callSummary e.2.1 := by simpa using hm
          exact hsumnd'.1 (this ▸ List.mem_map_of_mem (fun x => callSummary x.2.1) he')
    case hsumN' =>
      intro e' he'
      rw [keysOf_append]
      intro hm
      rcases List.mem_append.mp hm with hm | hm
      · exact hsumN e' (List.mem_cons_of_mem e he') hm
      · rcases ht : decide (e.2.2 = "(no output)") with _ | _
        · rw [if_neg (of_decide_eq_false ht)] at hm
          cases hm
        · rw [if_pos (of_decide_eq_true ht)] at hm
          have : callSummary e'.2.1 = callSummary e.2.1 := by simpa [keysOf] using hm
          exact hsumnd'.1 (this ▸ List.mem_map_of_mem (fun x => callSummary x.2.1) he')
    case hsumnd2 => exact hsumnd'.2
    case hsigG' =>
      intro e' he'
      intro hm
      rcases List.mem_append.mp hm with hm | hm
      · exact hsigG e' (List.mem_cons_of_mem e he') hm
      · have heq : callSummary e'.2.1 ++ "\n" ++ e'.2.2 =
            callSummary e.2.1 ++ "\n" ++ e.2.2 := by simpa using hm
        exact hsignd'.1
          (heq ▸ List.mem_map_of_mem (fun x => callSummary x.2.1 ++ "\n" ++ x.2.2) he')
    case hsignd2 => exact hsignd'.2
    case htxt' => intro e' he'; exact htxt e' (List.mem_cons_of_mem e he')
    case hn' => omega
    refine Prod.ext rfl ?_
    by_cases ht : e.2.2 = "(no output)"
    · simp [ht, List.filter_cons, List.append_assoc]
      omega
    · simp [ht, List.filter_cons, List.append_assoc]
      omega

/-- A counter map whose counts are all one raises no no-output advisory. -/
theorem noOutputNote?_ones {m : List (String × Nat)} (h : ∀ kv ∈ m, kv.2 = 1) :
    noOutputNote? m = none := by
  have hf : m.filter (fun kv => 1 < kv.2) = [] := by
    rw [List.filter_eq_nil_iff]
    intro kv hkv
    simp [h kv hkv]
  simp [noOutputNote?, hf]

/-- The advisory line of a family suppressed once whose running count is
one. -/
theorem suppressedNoteLine_one (FC : List (String × Nat)) (f : String)
    (h : aget FC f = 1) :
    suppressedNoteLine FC (f, 1) = "- " ++ f ++ " -> 1 inspection calls (1 collapsed)" := by
  unfold suppressedNoteLine
  dsimp only
  rw [h]
  rw [String.append_assoc, String.append_assoc, String.append_assoc, String.append_assoc,
    String.append_assoc, String.append_assoc]
  exact congrArg (fun x => "- " ++ x) (congrArg (fun x => f ++ x) (by decide))

/-- The per-family advisory note of a single once-suppressed family with
running count one and no mutations. -/
theorem suppressedNote?_one (FC : List (String × Nat)) (f : String)
    (h : aget FC f = 1) :
    suppressedNote? [(f, 1)] FC 0 =
      some ("[system_note]\n" ++
        ("Inspection-command loop detected:\n" ++
          ("- " ++ f ++ " -> 1 inspection calls (1 collapsed)") ++ "\n" ++
          "No edit/write actions detected yet. Stop repeating diagnostics and either implement changes or provide the final response.")) := by
  unfold suppressedNote?
  rw [show List.filter (fun kv => 0 < kv.2) [(f, 1)] = [(f, 1)] by simp]
  rw [if_neg (by simp)]
  rw [List.map_singleton, intercalate_singleton, suppressedNoteLine_one FC f h,
    if_pos rfl]

/-- A nonempty suppression map silences the global note. -/
theorem globalNote?_one_suppressed (total mc : Nat) (f : String) :
    globalNote? total mc [(f, 1)] = none := by
  unfold globalNote?
  rw [show List.filter (fun kv => 0 < kv.2) [(f, 1)] = [(f, 1)] by simp]
  simp

end Lemmas

section Claims

/-- C2: for every input message array, scaffold and options, the collapse
returns at most one system message followed by exactly one user message
whose content is, in order, the `<task>`-wrapped task body, the
progress-scaffold block and the environment-scaffold block (the engine
wraps the flattened transcript string, so the list of carried image parts
is empty). -/
theorem c2_envelope_invariant (messages : List Msg) (scaffold : ClineScaffold)
    (options : CollapseContextOptions) :
    ∃ sys : List Msg,
      collapseContextMessagesForCline messages scaffold options =
        sys ++ [{ role := some "user",
                  content := Content.arr
                    [Part.text ("<task>\n" ++ collapsedTranscript messages options ++ "\n</task>"),
                     Part.text scaffold.taskProgress, Part.text scaffold.environmentDetails] }] ∧
      (sys = [] ∨ ∃ s, sys = [{ role := some "system", content := Content.str s }]) :=
  collapse_shape messages scaffold options

set_option maxRecDepth 20000 in
/-- C9: the collapse engine is total — on every input, including null or
unknown content shapes, it returns a list of at most two messages ending
in a user message; a tool-argument string that fails to parse as JSON is
coerced to `{raw: <original string>}`; and a tool result whose call id is
unresolvable is labeled with the generic `tool` name. -/
theorem c9_total_and_fallbacks :
    (∀ (messages : List Msg) (scaffold : ClineScaffold) (options : CollapseContextOptions),
        (collapseContextMessagesForCline messages scaffold options).length ≤ 2 ∧
        ∃ m, (collapseContextMessagesForCline messages scaffold options).getLast? = some m ∧
          m.role = some "user") ∧
    (∀ s : String, jsonParse s = none →
        parseToolCallArguments (Js.jstr s) = Js.jobj [("raw", Js.jstr s)]) ∧
    collapseTranscriptParts
        [{ role := some "tool", toolCallId := some "zz", content := Content.str "out" }] {} =
      [toolResultBlock "tool" "out"] := by
  refine ⟨?_, ?_, by decide⟩
  · intro messages scaffold options
    obtain ⟨sys, heq, hsys⟩ := collapse_shape messages scaffold options
    constructor
    · rw [heq]
      rcases hsys with h | ⟨s, h⟩ <;> simp [h]
    · exact ⟨_, by rw [heq]; exact List.getLast?_concat sys, rfl⟩
  · intro s h
    simp only [parseToolCallArguments, h]

/-- C9 witness: the malformed argument string consisting of a lone opening
brace fails to parse and is wrapped as `{raw: ...}`. -/
theorem c9_total_and_fallbacks_witness :
    jsonParse (String.mk [lbrace]) = none ∧
    parseToolCallArguments (Js.jstr (String.mk [lbrace])) =
      Js.jobj [("raw", Js.jstr (String.mk [lbrace]))] := by
  have hp : jsonParse (String.mk [lbrace]) = none := rfl
  exact ⟨hp, c9_total_and_fallbacks.2.1 _ hp⟩

set_option maxRecDepth 20000 in
/-- C1: collapsing an already-collapsed history whose task body contains a
no-output advisory line does not reproduce the body — the rehydrated
counters make the engine append a duplicate copy of the advisory system
note, so the extracted task body grows instead of staying fixed. -/
theorem c1_advisory_note_reappended :
    (collapseContextMessagesForCline [wrappedUserMsg advisoryBody] markerScaffold
        { ignoreWrappedHistory := false }).map
        (fun m => extractTaskBodyFromWrappedContent m.content) =
      [advisoryBody ++ "\n\n" ++ advisoryNote] ∧
    advisoryBody ++ "\n\n" ++ advisoryNote ≠ advisoryBody := by
  constructor
  · decide
  · decide

set_option maxRecDepth 20000 in
/-- C3: a mutation between two identical reads does not reset the
identical-result signatures, so the read after the edit is still replaced
by the loop-detected stop message instead of passing through. -/
theorem c3_post_mutation_read_still_suppressed :
    collapseTranscriptParts mutationResetMsgs {} =
      [toolResultBlock "read a.txt" "contents",
       identicalLoopBlock "read" "read a.txt",
       toolResultBlock "edit a.txt" "ok",
       identicalLoopBlock "read" "read a.txt",
       "[system_note]\nRepeated identical tool results detected:\n- read a.txt -> 2 identical tool results\nAvoid repeating the same read/output cycle. Move forward with edits or produce the final response."] ∧
    identicalLoopBlock "read" "read a.txt" ≠ toolResultBlock "read a.txt" "contents" := by
  constructor
  · decide
  · decide

set_option maxRecDepth 20000 in
/-- C6 counterexample: processing the five listing invocations `ls`,
`ls -la`, `ls -la .`, `ls .`, `ls -al /tmp` with empty prior state leaves
every tool result in place — no entry is replaced by the per-family
inspection-suppression message, because the shared family count reaches
only 4, which does not exceed the threshold. -/
theorem c6_counterexample :
    collapseTranscriptParts lsFamilyMsgs {} =
      [toolResultBlock "$ ls" "A", toolResultBlock "$ ls -la" "B",
       toolResultBlock "$ ls -la ." "C", toolResultBlock "$ ls ." "D",
       toolResultBlock "$ ls -al /tmp" "E"] ∧
    ∀ s : String, familyLoopBlock s ∉ collapseTranscriptParts lsFamilyMsgs {} :=
  ⟨by decide, lsFamily_no_suppression⟩

set_option maxRecDepth 20000 in
/-- C6 amended: the five listing invocations trigger no per-family
suppression (the shared family reaches exactly the threshold count 4
without exceeding it); a sixth invocation normalizing to the same family
is replaced by the per-family suppression message. -/
theorem c6_amended :
    (∀ s : String, familyLoopBlock s ∉ collapseTranscriptParts lsFamilyMsgs {}) ∧
    familyLoopBlock "$ ls -a" ∈ collapseTranscriptParts lsFamilyMsgs6 {} :=
  ⟨lsFamily_no_suppression, by decide⟩

/-- C8 counterexample: two qualifying compound commands with the same
leading segment but different continuations do not share a family key —
a command whose leading segment is not a listing, viewing or
version-control form keeps the whole normalized command (continuation
included) as its key. -/
theorem c8_counterexample :
    firstChainSegment (normalizeToolCallSummaryForLoopDetection "$ pwd && echo a") =
      firstChainSegment (normalizeToolCallSummaryForLoopDetection "$ pwd && echo b") ∧
    detectInspectionToolFamily "bash" "$ pwd && echo a" = some "pwd && echo a" ∧
    detectInspectionToolFamily "bash" "$ pwd && echo b" = some "pwd && echo b" ∧
    detectInspectionToolFamily "bash" "$ pwd && echo a" ≠
      detectInspectionToolFamily "bash" "$ pwd && echo b" := by
  refine ⟨by decide, by decide, by decide, ?_⟩
  decide

/-- C8 amended: whenever the leading segment (before the first `&&`, `||`
or `;`) of two qualifying shell commands is the same and that segment
normalizes as a listing (`ls`), viewing (`cat`) or version-control (`git`)
form, the two commands map to the same family key; for other qualifying
commands the full normalized command is the key. -/
theorem c8_amended (s1 s2 f1 f2 : String)
    (h1 : detectInspectionToolFamily "bash" s1 = some f1)
    (h2 : detectInspectionToolFamily "bash" s2 = some f2)
    (hseg : firstChainSegment (normalizeToolCallSummaryForLoopDetection s1) =
      firstChainSegment (normalizeToolCallSummaryForLoopDetection s2))
    (hform : (lsTarget? (firstChainSegment (normalizeToolCallSummaryForLoopDetection s1))).isSome ∨
      (catArg? (firstChainSegment (normalizeToolCallSummaryForLoopDetection s1))).isSome ∨
      (gitSub? (firstChainSegment (normalizeToolCallSummaryForLoopDetection s1))).isSome) :
    f1 = f2 := by
  unfold detectInspectionToolFamily at h1 h2
  rw [if_neg (by decide), if_neg (by decide)] at h1 h2
  set c1 := normalizeToolCallSummaryForLoopDetection s1 with hc1
  set c2 := normalizeToolCallSummaryForLoopDetection s2 with hc2
  by_cases he1 : c1 = ""
  · rw [if_pos he1] at h1; cases h1
  by_cases hi1 : isInspectionCommand c1
  · by_cases he2 : c2 = ""
    · rw [if_pos he2] at h2; cases h2
    by_cases hi2 : isInspectionCommand c2
    · rw [if_neg he1, if_neg (by simp [hi1])] at h1
      rw [if_neg he2, if_neg (by simp [hi2])] at h2
      have e1 : f1 = inspectionFamilyKey c1 := (Option.some_inj.mp h1).symm
      have e2 : f2 = inspectionFamilyKey c2 := (Option.some_inj.mp h2).symm
      rw [e1, e2]
      unfold inspectionFamilyKey
      rw [← hseg]
      cases hls : lsTarget? (firstChainSegment c1) with
      | some u => rfl
      | none =>
        cases hct : catArg? (firstChainSegment c1) with
        | some u => rfl
        | none =>
          cases hgt : gitSub? (firstChainSegment c1) with
          | some u => rfl
          | none =>
            rcases hform with hf | hf | hf <;>
              simp [hls, hct, hgt] at hf
    · rw [if_neg he2, if_pos (by simp [hi2])] at h2; cases h2
  · rw [if_neg he1, if_pos (by simp [hi1])] at h1; cases h1

/-- C8 amended witness: two chained commands sharing the listing leading
segment `ls -la` map to the same family key. -/
theorem c8_amended_witness :
    detectInspectionToolFamily "bash" "$ ls -la && cat x" = some "ls ." ∧
    detectInspectionToolFamily "bash" "$ ls -la; rm y" = some "ls ." ∧
    "ls ." = "ls ." := by
  have h1 : detectInspectionToolFamily "bash" "$ ls -la && cat x" = some "ls ." := by decide
  have h2 : detectInspectionToolFamily "bash" "$ ls -la; rm y" = some "ls ." := by decide
  exact ⟨h1, h2, c8_amended _ _ _ _ h1 h2 (by decide) (Or.inl (by decide))⟩

/-- C10: for every tool result classified into an inspection family, the
per-family count and the global inspection-since-mutation count are
incremented by the step, whichever branch (pass-through or any
replacement) produces the transcript entry. -/
theorem c10_counts_incremented_before_dedup (n s t : String) (st : LoopState) (f : String)
    (h : detectInspectionToolFamily n s = some f) :
    aget (processToolResult n s t st).1.inspectionCommandCountsByFamily f =
      aget st.inspectionCommandCountsByFamily f + 1 ∧
    (processToolResult n s t st).1.totalInspectionCallsSinceMutation =
      st.totalInspectionCallsSinceMutation + 1 := by
  have hn := detect_name h
  have hmut : (n = "edit" || n = "write") = false := by
    rcases hn with h1 | h1 <;> subst h1 <;> decide
  unfold processToolResult
  rw [hmut]
  simp only [Bool.false_eq_true, if_false, h]
  constructor <;> (repeat' split) <;> simp [aget_aset_self]

/-- C10 witness: a first `ls` inspection increments its family count from
0 to 1 and the global count from 0 to 1. -/
theorem c10_counts_incremented_before_dedup_witness :
    detectInspectionToolFamily "bash" "$ ls" = some "ls ." ∧
    aget (processToolResult "bash" "$ ls" "hi" {}).1.inspectionCommandCountsByFamily "ls ." =
      aget ({} : LoopState).inspectionCommandCountsByFamily "ls ." + 1 ∧
    (processToolResult "bash" "$ ls" "hi" {}).1.totalInspectionCallsSinceMutation =
      ({} : LoopState).totalInspectionCallsSinceMutation + 1 := by
  have h : detectInspectionToolFamily "bash" "$ ls" = some "ls ." := by decide
  exact ⟨h, c10_counts_incremented_before_dedup "bash" "$ ls" "hi" {} "ls ." h⟩

set_option maxRecDepth 20000 in
/-- C4: for every summary and every N ≥ 1, a run of N tool results sharing
that summary whose text is exactly the no-output sentinel, with no
mutation and empty prior state, leaves exactly one literal no-output
block and N−1 loop-detected replacement blocks in the assembled
transcript parts. -/
theorem c4_no_output_dedup (t : String) (N : Nat)
    (h1 : t ≠ "edit") (h2 : t ≠ "write") (h3 : 1 ≤ N) :
    (collapseTranscriptParts (List.replicate N (toolMsgNamed t "(no output)")) {}).count
        (toolResultBlock t "(no output)") = 1 ∧
    (collapseTranscriptParts (List.replicate N (toolMsgNamed t "(no output)")) {}).count
        (noOutputLoopBlock t) = N - 1 := by
  have hmut : (t = "edit" || t = "write") = false := by simp [h1, h2]
  obtain ⟨n, rfl⟩ : ∃ n, N = n + 1 := ⟨N - 1, (Nat.succ_pred_eq_of_pos h3).symm⟩
  set msgs := List.replicate (n + 1) (toolMsgNamed t "(no output)") with hmsgs
  have hmem : ∀ m ∈ msgs, m = toolMsgNamed t "(no output)" := fun m hm =>
    List.eq_of_mem_replicate (hmsgs ▸ hm)
  have hsan : msgs.map sanitizeMessageContentForCline = msgs := by
    rw [hmsgs, List.map_replicate, sanitize_toolMsgNamed]
  have hrole : ∀ m ∈ msgs, m.role ≠ some "user" := by
    intro m hm
    rw [hmem m hm]
    simp [toolMsgNamed]
  have hskill : activeSkillOf msgs = none := by
    unfold activeSkillOf extractLatestPlainUserText
    rw [hsan, latestPlain_nil _ (fun m hm => hrole m (List.mem_reverse.mp hm))]
    decide
  have hwrap : wrappedOf msgs { ignoreWrappedHistory := false } = none := by
    unfold wrappedOf
    rw [hsan]
    exact findWrapped_nil _ _ fun p hp => hrole p.2 (mem_of_mem_enum_reverse hp)
  have hbase : baseTranscriptOf msgs { ignoreWrappedHistory := false } = "" := by
    unfold baseTranscriptOf
    rw [hwrap]
  have hstart : startIndexOf msgs { ignoreWrappedHistory := false } = 0 := by
    unfold startIndexOf
    rw [hwrap]
  have hctx : collectToolCallContext msgs = [] :=
    collect_eq_nil _ fun m hm => by rw [hmem m hm]; rfl
  have hloop1 : (collapseLoopRun msgs { ignoreWrappedHistory := false }).1 =
      toolResultBlock t "(no output)" :: List.replicate n (noOutputLoopBlock t) := by
    unfold collapseLoopRun
    rw [hctx, hstart, hbase, hsan, List.drop_zero,
      show buildPriorTranscriptState "" = ({} : PriorTranscriptState) from rfl,
      show loopStateOfPrior {} = ({} : LoopState) from rfl,
      hmsgs, zip_replicate_self, List.replicate_succ, collapseLoop_noOut_cons]
    obtain ⟨hp2, hseen⟩ := processToolResult_noOutput_first t hmut
    simp only [hp2, c4_loop t hmut n _ hseen]
  have hdecomp : collapseTranscriptParts msgs { ignoreWrappedHistory := false } =
      (collapseLoopRun msgs { ignoreWrappedHistory := false }).1 ++
        collapseNotes (collapseLoopRun msgs { ignoreWrappedHistory := false }).2 := by
    unfold collapseTranscriptParts
    rw [hbase, hskill]
    simp
  have hne : toolResultBlock t "(no output)" ≠ noOutputLoopBlock t := by
    unfold noOutputLoopBlock
    rw [toolResultBlock_eq, toolResultBlock_eq]
    exact append_right_ne _ (by decide)
  rw [hdecomp, hloop1]
  constructor
  · rw [List.count_append,
      show (collapseNotes (collapseLoopRun msgs { ignoreWrappedHistory := false }).2).count
          (toolResultBlock t "(no output)") = 0 from count_collapseNotes_block _ t _]
    simp [List.count_cons, List.count_replicate, hne, Ne.symm hne]
  · rw [List.count_append,
      show (collapseNotes (collapseLoopRun msgs { ignoreWrappedHistory := false }).2).count
          (noOutputLoopBlock t) = 0 from count_collapseNotes_block _ t _]
    simp [List.count_cons, List.count_replicate, hne, Ne.symm hne]

/-- C4 witness: three no-output results for the summary `mytool` leave one
literal block and two replacements. -/
theorem c4_no_output_dedup_witness :
    ("mytool" ≠ "edit" ∧ "mytool" ≠ "write" ∧ 1 ≤ 3) ∧
    (collapseTranscriptParts (List.replicate 3 (toolMsgNamed "mytool" "(no output)")) {}).count
        (toolResultBlock "mytool" "(no output)") = 1 ∧
    (collapseTranscriptParts (List.replicate 3 (toolMsgNamed "mytool" "(no output)")) {}).count
        (noOutputLoopBlock "mytool") = 3 - 1 :=
  ⟨⟨by decide, by decide, by decide⟩,
   c4_no_output_dedup "mytool" 3 (by decide) (by decide) (by decide)⟩

set_option maxRecDepth 40000 in
/-- C5: suppression decisions are not preserved across a split collapse.
Collapsing the whole history in one call passes the final `cat f` result
through, but collapsing the prefix first and then collapsing the suffix
against the collapsed prefix replaces the same result with the per-family
suppression message: the rehydrator counts the three pre-mutation `cat f`
blocks into the family count because, unlike the live engine, it never
clears per-family counts at a mutation. -/
theorem c5_rehydration_divergence :
    (collapseTranscriptParts (rehydratePrefixMsgs ++ rehydrateSuffixMsgs) {}).getLast? =
      some (toolResultBlock "$ cat f" "F") ∧
    collapseTranscriptParts rehydrateSplitMsgs {} =
      [rehydratedBody, familyLoopBlock "$ cat f",
       "[system_note]\nInspection-command loop detected:\n- cat f -> 6 inspection calls (1 collapsed)\nStop repeating diagnostics and continue with concrete progress."] ∧
    toolResultBlock "$ cat f" "F" ∉ collapseTranscriptParts rehydrateSplitMsgs {} := by
  have hs : collapseTranscriptParts rehydrateSplitMsgs {} =
      [rehydratedBody, familyLoopBlock "$ cat f",
       "[system_note]\nInspection-command loop detected:\n- cat f -> 6 inspection calls (1 collapsed)\nStop repeating diagnostics and continue with concrete progress."] := by
    decide
  refine ⟨by decide, hs, ?_⟩
  rw [hs]
  decide

set_option maxRecDepth 40000 in
/-- C7 counterexample: nine inspection results in pairwise-distinct
families with zero mutations and empty prior state whose ninth result is
nonetheless not replaced by the global-inspection-loop warning, because
its (summary, text) signature — the ninth summary embeds a newline —
collides with the first result's signature and the identical-result
deduplication fires first. -/
theorem c7_counterexample :
    (sigCollisionEntries.map fun e => callFamily e.2.1).Nodup ∧
    (∀ e ∈ sigCollisionEntries, (callFamily e.2.1).isSome = true) ∧
    (collapseLoopRun (inspEntryMsgs sigCollisionEntries) {}).2.mutatingToolCallCount = 0 ∧
    (collapseTranscriptParts (inspEntryMsgs sigCollisionEntries) {})[8]? =
      some (identicalLoopBlock "bash" "$ ls\nA\n$ ls -x") ∧
    identicalLoopBlock "bash" "$ ls\nA\n$ ls -x" ≠
      globalLoopBlock "$ ls\nA\n$ ls -x" 9 := by
  decide

/-- C7 (amended): for nine canonically-encoded inspection results in
pairwise-distinct families, with pairwise-distinct (summary, text)
signatures, distinct truthy call ids, trimmed nonempty texts, zero
mutations and empty prior state, the first eight results pass through
literally, the ninth is replaced by the global-inspection-loop warning
carrying total 9, the appended advisory is the per-family suppression
note for the ninth family, and the global system note is emitted if and
only if the per-family suppression note is not. -/
theorem c7_amended (l8 : List InspEntry) (e9 : InspEntry) (fam : InspEntry → String)
    (hlen : l8.length = 8)
    (hfam : ∀ e ∈ l8 ++ [e9], callFamily e.2.1 = some (fam e))
    (hfamnd : ((l8 ++ [e9]).map fam).Nodup)
    (hid : ∀ e ∈ l8 ++ [e9], e.1 ≠ "")
    (hidnd : ((l8 ++ [e9]).map fun e => e.1).Nodup)
    (htxt : ∀ e ∈ l8 ++ [e9], jsTrim e.2.2 = e.2.2 ∧ e.2.2 ≠ "")
    (hsig : ((l8 ++ [e9]).map fun e => callSummary e.2.1 ++ "\n" ++ e.2.2).Nodup) :
    collapseTranscriptParts (inspEntryMsgs (l8 ++ [e9])) {} =
      l8.map (fun e => toolResultBlock (callSummary e.2.1) e.2.2) ++
      [globalLoopBlock (callSummary e9.2.1) 9,
       "[system_note]\n" ++
         ("Inspection-command loop detected:\n" ++
           ("- " ++ fam e9 ++ " -> 1 inspection calls (1 collapsed)") ++ "\n" ++
           "No edit/write actions detected yet. Stop repeating diagnostics and either implement changes or provide the final response.")] ∧
    ((globalNote?
        (collapseLoopRun (inspEntryMsgs (l8 ++ [e9])) {}).2.totalInspectionCallsSinceMutation
        (collapseLoopRun (inspEntryMsgs (l8 ++ [e9])) {}).2.mutatingToolCallCount
        (collapseLoopRun (inspEntryMsgs (l8 ++ [e9])) {}).2.suppressedInspectionCommandsByFamily).isSome ↔
      suppressedNote?
        (collapseLoopRun (inspEntryMsgs (l8 ++ [e9])) {}).2.suppressedInspectionCommandsByFamily
        (collapseLoopRun (inspEntryMsgs (l8 ++ [e9])) {}).2.inspectionCommandCountsByFamily
        (collapseLoopRun (inspEntryMsgs (l8 ++ [e9])) {}).2.mutatingToolCallCount = none) := by
  have hmem9 : e9 ∈ l8 ++ [e9] := List.mem_append_right l8 (List.mem_singleton_self e9)
  have hsumnd : ((l8 ++ [e9]).map fun e => callSummary e.2.1).Nodup :=
    sums_nodup fam hfam hfamnd
  have hctx := collect_inspEntryMsgs (l8 ++ [e9]) hidnd hid
  have hres : ∀ e ∈ l8 ++ [e9],
      resolveToolIdentity ((l8 ++ [e9]).map fun e0 =>
          (e0.1, { name := callName e0.2.1, summary := callSummary e0.2.1 : ToolCallContext }))
        (toolMsg e.1 e.2.2) = (callName e.2.1, callSummary e.2.1) := by
    intro e he
    exact resolveToolIdentity_toolMsg _ e.1 e.2.2 _
      (ctxGet?_map_nodup (l8 ++ [e9]) _ hidnd e he) (callName_ne e.2.1) (callSummary_ne e.2.1)
  have hnfam : fam e9 ∉ l8.map fam := by
    rw [List.map_append, List.map_singleton] at hfamnd
    exact not_mem_of_append_singleton hfamnd
  have hnsum : callSummary e9.2.1 ∉ l8.map fun e => callSummary e.2.1 := by
    rw [List.map_append, List.map_singleton] at hsumnd
    exact not_mem_of_append_singleton hsumnd
  have hnsig : callSummary e9.2.1 ++ "\n" ++ e9.2.2 ∉
      l8.map fun e => callSummary e.2.1 ++ "\n" ++ e.2.2 := by
    rw [List.map_append, List.map_singleton] at hsig
    exact not_mem_of_append_singleton hsig
  have hfamF9 : fam e9 ∉ keysOf (l8.map fun e => (fam e, 1)) := by
    intro hm
    apply hnfam
    simpa [keysOf, List.map_map, Function.comp] using hm
  have hsumS9 : callSummary e9.2.1 ∉
      (l8.filter fun e => e.2.2 = "(no output)").map fun e => callSummary e.2.1 := by
    intro hm
    obtain ⟨e, he, heq⟩ := List.mem_map.mp hm
    exact hnsum (heq ▸ List.mem_map_of_mem _ (List.mem_of_mem_filter he))
  have hsumN9 : callSummary e9.2.1 ∉
      keysOf ((l8.filter fun e => e.2.2 = "(no output)").map fun e => (callSummary e.2.1, 1)) := by
    intro hm
    simp only [keysOf, List.map_map, Function.comp] at hm
    obtain ⟨e, he, heq⟩ := List.mem_map.mp hm
    exact hnsum (heq ▸ List.mem_map_of_mem _ (List.mem_of_mem_filter he))
  have hag : aget ((l8.map fun e => (fam e, 1)) ++ [(fam e9, 1)]) (fam e9) = 1 := by
    rw [aget_append_of_not_mem _ _ hfamF9, aget_single]
  -- unfold the engine and drive the loop
  unfold collapseTranscriptParts collapseLoopRun
  rw [hctx, startIndexOf_inspEntry, List.drop_zero, baseTranscriptOf_inspEntry,
    activeSkillOf_inspEntry, initialState_empty, zip_map_self, inspEntryMsgs,
    List.map_cons, collapseLoop_asst_cons, List.map_map]
  rw [show ((l8 ++ [e9]).map
        ((fun m => (m, sanitizeMessageContentForCline m)) ∘ fun e => toolMsg e.1 e.2.2)) =
      (l8 ++ [e9]).map fun e => (toolMsg e.1 e.2.2, toolMsg e.1 e.2.2) from
    List.map_congr_left fun e he => by
      show (toolMsg e.1 e.2.2, sanitizeMessageContentForCline (toolMsg e.1 e.2.2)) = _
      rw [sanitize_toolMsg e.1 e.2.2 (htxt e he).1 (htxt e he).2]]
  rw [show ((l8 ++ [e9]).map fun e => (toolMsg e.1 e.2.2, toolMsg e.1 e.2.2)) =
      (l8.map fun e => (toolMsg e.1 e.2.2, toolMsg e.1 e.2.2)) ++
        [(toolMsg e9.1 e9.2.2, toolMsg e9.1 e9.2.2)] from by
    rw [List.map_append, List.map_singleton]]
  rw [collapseLoop_append]
  rw [collapseLoop_fresh _ fam l8 [] [] [] [] [] 0
    (fun e he => hres e (List.mem_append_left _ he))
    (fun e he => hfam e (List.mem_append_left _ he))
    (fun e _ => List.not_mem_nil _)
    (List.Nodup.of_append_left (List.map_append fam l8 [e9] ▸ hfamnd))
    (fun e _ => List.not_mem_nil _)
    (fun e _ => List.not_mem_nil _)
    (List.Nodup.of_append_left (List.map_append _ l8 [e9] ▸ hsumnd))
    (fun e _ => List.not_mem_nil _)
    (List.Nodup.of_append_left (List.map_append _ l8 [e9] ▸ hsig))
    (fun e he => htxt e (List.mem_append_left _ he))
    (by omega)]
  dsimp only
  simp only [List.nil_append, Nat.zero_add, hlen]
  rw [collapseLoop_tool_cons _ e9.1 e9.2.2 (callName e9.2.1) (callSummary e9.2.1) [] _
    (htxt e9 hmem9).1 (htxt e9 hmem9).2 (hres e9 hmem9)]
  rw [processToolResult_global (callName e9.2.1) (callSummary e9.2.1) e9.2.2 (fam e9)
    _ _ _ _ _ (callName_not_mut e9.2.1) (hfam e9 hmem9) hfamF9 hsumS9 hsumN9 hnsig]
  dsimp only
  simp only [show ∀ (c : List (String × ToolCallContext)) (st : LoopState),
      collapseLoop c [] st = ([], st) from fun _ _ => rfl]
  unfold collapseNotes
  dsimp only
  have hones : ∀ kv ∈ ((l8.filter fun e => e.2.2 = "(no output)").map
        fun e => (callSummary e.2.1, 1)) ++
      (if e9.2.2 = "(no output)" then [(callSummary e9.2.1, 1)] else []), kv.2 = 1 := by
    intro kv hm
    rcases List.mem_append.mp hm with hm | hm
    · obtain ⟨e, -, rfl⟩ := List.mem_map.mp hm
      rfl
    · by_cases hc : e9.2.2 = "(no output)"
      · rw [if_pos hc] at hm
        have hkv : kv = (callSummary e9.2.1, 1) := by simpa using hm
        rw [hkv]
      · rw [if_neg hc] at hm
        cases hm
  rw [noOutputNote?_ones hones,
    show identicalNote? [] = none from rfl,
    suppressedNote?_one _ _ hag, globalNote?_one_suppressed]
  simp

/-- C7 witness: nine concrete distinct-family shell inspections (ls, cat,
git diff/status/log/show, pwd, which, tree) with distinct results realise
the amended claim: eight literal blocks, the global warning on the ninth,
and the per-family note for the ninth family in place of the global
note. -/
theorem c7_amended_witness :
    collapseTranscriptParts (inspEntryMsgs (distinctFamEntries8 ++ [distinctFamEntry9])) {} =
      distinctFamEntries8.map (fun e => toolResultBlock (callSummary e.2.1) e.2.2) ++
      [globalLoopBlock (callSummary distinctFamEntry9.2.1) 9,
       "[system_note]\n" ++
         ("Inspection-command loop detected:\n" ++
           ("- " ++ (callFamily distinctFamEntry9.2.1).getD "" ++
             " -> 1 inspection calls (1 collapsed)") ++ "\n" ++
           "No edit/write actions detected yet. Stop repeating diagnostics and either implement changes or provide the final response.")] ∧
    ((globalNote?
        (collapseLoopRun (inspEntryMsgs (distinctFamEntries8 ++ [distinctFamEntry9]))
          {}).2.totalInspectionCallsSinceMutation
        (collapseLoopRun (inspEntryMsgs (distinctFamEntries8 ++ [distinctFamEntry9]))
          {}).2.mutatingToolCallCount
        (collapseLoopRun (inspEntryMsgs (distinctFamEntries8 ++ [distinctFamEntry9]))
          {}).2.suppressedInspectionCommandsByFamily).isSome ↔
      suppressedNote?
        (collapseLoopRun (inspEntryMsgs (distinctFamEntries8 ++ [distinctFamEntry9]))
          {}).2.suppressedInspectionCommandsByFamily
        (collapseLoopRun (inspEntryMsgs (distinctFamEntries8 ++ [distinctFamEntry9]))
          {}).2.inspectionCommandCountsByFamily
        (collapseLoopRun (inspEntryMsgs (distinctFamEntries8 ++ [distinctFamEntry9]))
          {}).2.mutatingToolCallCount = none) :=
  c7_amended distinctFamEntries8 distinctFamEntry9 (fun e => (callFamily e.2.1).getD "")
    (by decide) (by decide) (by decide) (by decide) (by decide) (by decide) (by decide)

end Claims

end Cline
